import Mathlib

/-
  Verification development for the animation decoder of the tsc-blender-io
  repository (src/addons/io_scene_tsc/animation.py).

  The Python module is embedded shallowly:
  * machine integers become Nat / Int,
  * Python floats become exact rationals (ℚ); the external math library
    (math.sqrt / math.sin / math.cos) is abstracted as a `RealOps` record,
  * fallible operations return `Except PyErr`, with one constructor per
    Python exception class relevant to the module,
  * the bit stream helper (`bit_array.BitArray`) and the small `utils`
    helpers are not part of the given sources; they are modelled from the
    specification text, as marked on each such definition.
-/

set_option maxRecDepth 100000

namespace TSC

/-- Python exception kinds that the animation module can raise or catch.
`fileReadError` stands for `utils.FileReadError`, the single documented
failure kind. -/
inductive PyErr where
  | fileReadError
  | indexError
  | valueError
  | zeroDivisionError
  | structError
  | osError
  | typeError
deriving DecidableEq, Repr

abbrev Exc (α : Type) := Except PyErr α

instance {α : Type} [DecidableEq α] : DecidableEq (Exc α) := fun a b =>
  match a, b with
  | .ok x, .ok y =>
    if h : x = y then .isTrue (by rw [h]) else .isFalse (by intro hc; cases hc; exact h rfl)
  | .error x, .error y =>
    if h : x = y then .isTrue (by rw [h]) else .isFalse (by intro hc; cases hc; exact h rfl)
  | .ok _, .error _ => .isFalse (by intro hc; cases hc)
  | .error _, .ok _ => .isFalse (by intro hc; cases hc)

/-- The seven game version tags of `utils.GameType` used by the animation
module (modelled from the spec; `utils` is not under the given sources). -/
inductive GameType where
  | THESIMS
  | THESIMSBUSTINOUT
  | THEURBZ
  | THESIMS2
  | THESIMS2PETS
  | THESIMS2CASTAWAY
  | THESIMS3
deriving DecidableEq, Repr

/-- Modelled from the spec: `bit_array.BitArray` owns a fixed sequence of
unsigned 32-bit words, read-only after construction. -/
structure BitArray where
  words : List Nat
deriving DecidableEq, Repr

/-- Modelled from the spec: total number of addressable bits of the word
sequence; all reads must stay within this bound. -/
def BitArray.totalBits (s : BitArray) : Nat := 32 * s.words.length

/-- Modelled from the spec: the bit stored at absolute bit index `i`,
MSB-first within each 32-bit word. -/
def BitArray.bitAt (s : BitArray) (i : Nat) : Nat :=
  (s.words.getD (i / 32) 0 >>> (31 - i % 32)) % 2

/-- Modelled from the spec: the unsigned value of the `w` bits starting at
bit `i`, MSB-first within the field (no bounds check; internal helper). -/
def BitArray.bitsVal (s : BitArray) (i : Nat) : Nat → Nat
  | 0 => 0
  | w + 1 => s.bitsVal i w * 2 + s.bitAt (i + w)

/-- Modelled from the spec: `get_bits_unsigned(bit_index, width)`; an
out-of-range read fails loudly (modelled as an IndexError). -/
def BitArray.get_bits_unsigned (s : BitArray) (i w : Nat) : Exc Nat :=
  if i + w ≤ s.totalBits then .ok (s.bitsVal i w) else .error .indexError

/-- Modelled from the spec: `get_bits_signed(bit_index, width)`, the
two's-complement interpretation of the same field. -/
def BitArray.get_bits_signed (s : BitArray) (i w : Nat) : Exc Int := do
  let u ← s.get_bits_unsigned i w
  if w = 0 then pure 0
  else if 2 ^ (w - 1) ≤ u then pure ((u : Int) - 2 ^ w) else pure (u : Int)

/-- Modelled from the spec: `get_bit(bit_index)`. -/
def BitArray.get_bit (s : BitArray) (i : Nat) : Exc Bool :=
  if i < s.totalBits then .ok (s.bitAt i = 1) else .error .indexError

/-- Modelled from the spec: `signed_bits_to_float_scaler(width)` is
`1.0 / (2^(width-1) - 1)`; a zero denominator (width = 1) raises a
ZeroDivisionError in Python. Python computes `2**(width-1)` exactly
(`2**(-1)` is the float `0.5` for width 0), mirrored by the integer
exponent here. -/
def BitArray.signed_bits_to_float_scaler (_s : BitArray) (w : Nat) : Exc ℚ :=
  if (2 : ℚ) ^ ((w : ℤ) - 1) - 1 = 0 then .error .zeroDivisionError
  else .ok (1 / ((2 : ℚ) ^ ((w : ℤ) - 1) - 1))

/-- Modelled from the spec: `unsigned_bits_to_float_scaler(width)` is
`1.0 / (2^width - 1)`; width 0 raises a ZeroDivisionError. -/
def BitArray.unsigned_bits_to_float_scaler (_s : BitArray) (w : Nat) : Exc ℚ :=
  if (2 : ℚ) ^ (w : ℤ) - 1 = 0 then .error .zeroDivisionError
  else .ok (1 / ((2 : ℚ) ^ (w : ℤ) - 1))

/-- Modelled from the spec: reinterpretation of 32 raw bits as an IEEE-754
binary32 value, as an exact rational. Infinities and NaNs (exponent 255)
have no rational value and are mapped to 0; no claim below depends on them. -/
def ieee32ToRat (u : Nat) : ℚ :=
  let sign : Nat := u / 2 ^ 31
  let ex : Nat := u / 2 ^ 23 % 2 ^ 8
  let frac : Nat := u % 2 ^ 23
  let mag : ℚ :=
    if ex = 0 then (2 : ℚ) ^ (-(126 : ℤ)) * ((frac : ℚ) / 2 ^ 23)
    else if ex = 255 then 0
    else (2 : ℚ) ^ ((ex : ℤ) - 127) * (1 + (frac : ℚ) / 2 ^ 23)
  if sign = 1 then -mag else mag

/-- Modelled from the spec: `get_float(bit_index)` reinterprets exactly 32
raw bits starting at the given (not necessarily aligned) offset. -/
def BitArray.get_float (s : BitArray) (i : Nat) : Exc ℚ := do
  let u ← s.get_bits_unsigned i 32
  pure (ieee32ToRat u)

/-- Modelled from the spec: the external math library used by the decoders
(`math.sqrt`, `math.sin`, `math.cos`), abstracted at its interface. -/
structure RealOps where
  sqrt : ℚ → ℚ
  sin : ℚ → ℚ
  cos : ℚ → ℚ

/-- Concrete math-library instance used to evaluate the decoders on the
concrete inputs below; it agrees with the real functions on the values at
which they are applied there (sqrt at 0 and 1, sin and cos at 0). -/
def opsEx : RealOps :=
  RealOps.mk (fun q => if q = 1 then 1 else 0) (fun _ => 0) (fun _ => 1)

/-- `QuaternionKeyframe` from the source (rotation as the 4-component
`(w, x, y, z)` list handed to `mathutils.Quaternion`). -/
structure QuaternionKeyframe where
  frame : Int
  bias : ℚ
  rotation : List ℚ
deriving DecidableEq, Repr

/-- `VectorKeyframe` from the source. -/
structure VectorKeyframe where
  frame : Int
  bias : ℚ
  vector : List ℚ
deriving DecidableEq, Repr

/-- Modelled from the spec: `mathutils.Quaternion(...).normalized()` —
every reconstructed quaternion is renormalized to unit length (a zero
quaternion is returned unchanged). -/
def quatNormalized (ops : RealOps) (q : List ℚ) : List ℚ :=
  let n := ops.sqrt (q.foldl (fun a x => a + x * x) 0)
  if n = 0 then q else q.map (fun x => x / n)

/-- Per-keyframe quaternion reconstruction of
`decompress_quaternion_keyframes` (animation.py lines 62-105): the branch
on the game version, the reserved-bit skip, the three stored components,
the implicit component, the negate bit, and the final reordering. Returns
the list passed to `mathutils.Quaternion(...)` and the advanced cursor.
The successive `let q3 := ...` bindings mirror the successive assignments
to `quat[3]` (and `quat[0]`) in the source. -/
def decodeQuatRaw (ops : RealOps) (s : BitArray) (qScale : ℚ) (qw : Nat)
    (gt : GameType) (idx : Nat) : Exc (List ℚ × Nat) :=
  if gt ∈ [GameType.THESIMS2PETS, GameType.THESIMS2CASTAWAY, GameType.THESIMS3] then do
    let idx := idx + 1
    let v0 ← s.get_bits_signed idx qw
    let idx := idx + qw
    let v1 ← s.get_bits_signed idx qw
    let idx := idx + qw
    let v2 ← s.get_bits_signed idx qw
    let idx := idx + qw
    let q0 := qScale * (v0 : ℚ)
    let q1 := qScale * (v1 : ℚ)
    let q2 := qScale * (v2 : ℚ)
    let q3 : ℚ := 0
    let q3 := 1 - (q1 * q1 + q2 * q2 + q3 * q3)
    let negate_x ← s.get_bit idx
    let idx := idx + 1
    let q3 := if 0 < q3 then (if negate_x then -(ops.sqrt q3) else ops.sqrt q3) else 0
    pure ([q3, q0, q1, q2], idx)
  else do
    let v1 ← s.get_bits_signed idx qw
    let idx := idx + qw
    let v2 ← s.get_bits_signed idx qw
    let idx := idx + qw
    let v3 ← s.get_bits_signed idx qw
    let idx := idx + qw
    let q1 := qScale * (v1 : ℚ)
    let q2 := qScale * (v2 : ℚ)
    let q3 := qScale * (v3 : ℚ)
    let q0 := 1 - (q1 * q1 + q2 * q2 + q3 * q3)
    let negate_x ← s.get_bit idx
    let idx := idx + 1
    let q0 := if 0 < q0 then (if negate_x then -(ops.sqrt q0) else ops.sqrt q0) else 0
    pure ([q3, q0, q1, q2], idx)

/-- The conditional bias read of the quaternion keyframe loop (line 59):
a signed field when the bias width is positive, otherwise the constant 0
with no read. -/
def quatBias (s : BitArray) (biasW : Nat) (biasScale : ℚ) (idx : Nat) : Exc ℚ :=
  if 0 < biasW then do
    let b ← s.get_bits_signed idx biasW
    pure (biasScale * (b : ℚ))
  else pure (0 : ℚ)

/-- The conditional bias-scale computation shared by the decoder headers
(lines 43, 146, 230): 0 when the bias width is 0, otherwise the signed
scaler (whose width-1 case raises a ZeroDivisionError). -/
def biasScaleOf (s : BitArray) (biasW : Nat) : Exc ℚ :=
  if biasW = 0 then pure (0 : ℚ) else s.signed_bits_to_float_scaler biasW

/-- The keyframe loop of `decompress_quaternion_keyframes` (lines 55-115),
with the per-iteration state (`index`, `frame_count`) threaded explicitly;
returns the keyframes together with the final cursor. -/
def quatLoop (ops : RealOps) (s : BitArray) (deltaW biasW : Nat)
    (biasScale qScale : ℚ) (qw mult : Nat) (gt : GameType) :
    Nat → Nat → Nat → Exc (List QuaternionKeyframe × Nat)
  | 0, idx, _ => pure ([], idx)
  | n + 1, idx, fc => do
    let dt ← s.get_bits_unsigned idx deltaW
    let idx := idx + deltaW
    let bias ← quatBias s biasW biasScale idx
    let idx := idx + biasW
    let (quat, idx) ← decodeQuatRaw ops s qScale qw gt idx
    let fc := fc + dt + 1
    let (rest, idx) ← quatLoop ops s deltaW biasW biasScale qScale qw mult gt n idx fc
    pure (QuaternionKeyframe.mk (((fc * mult : Nat) : Int) - 1) bias (quatNormalized ops quat) :: rest, idx)

/-- `decompress_quaternion_keyframes` (lines 25-117). The caller passes the
negative channel index; the function negates it into a bit cursor. -/
def decompress_quaternion_keyframes (ops : RealOps) (s : BitArray)
    (index : Int) (fps : ℚ) (gt : GameType) : Exc (List QuaternionKeyframe) := do
  let idx := (-index).toNat
  let keyframe_count ← s.get_bits_unsigned idx 20
  let idx := idx + 20
  let delta_time_bit_count ← s.get_bits_unsigned idx 5
  let idx := idx + 5
  let bias_bit_count ← s.get_bits_unsigned idx 5
  let idx := idx + 5
  let bias_scale ← biasScaleOf s bias_bit_count
  let quaternion_bit_count ← s.get_bits_unsigned idx 5
  let idx := idx + 5
  let quaternion_scale ← s.signed_bits_to_float_scaler quaternion_bit_count
  let frame_count_multiplier := if fps = 60 then 1 else 2
  let (keyframes, _) ← quatLoop ops s delta_time_bit_count bias_bit_count bias_scale
    quaternion_scale quaternion_bit_count frame_count_multiplier gt keyframe_count idx 0
  pure keyframes

/-- The conditional scale/offset header of the 1-DOF decoder
(lines 154-166): nothing is read when the element width is 32, otherwise a
float scale (multiplied by the width's unsigned scaler) and a float offset
are read once. -/
def dofElemHeader (s : BitArray) (elemW : Nat) (idx : Nat) : Exc (ℚ × ℚ × Nat) :=
  if elemW = 32 then pure ((1 : ℚ), (0 : ℚ), idx)
  else do
    let es ← s.unsigned_bits_to_float_scaler elemW
    let scale_float ← s.get_float idx
    let idx := idx + 32
    let element_offset ← s.get_float idx
    let idx := idx + 32
    pure (scale_float * es, element_offset, idx)

/-- The per-keyframe angle read of the 1-DOF decoder (lines 180-185): a
raw float when the element width is 32, otherwise a quantized unsigned
field with the affine scale and offset applied. -/
def dofElement (s : BitArray) (elemW : Nat) (elemScale elemOffset : ℚ)
    (idx : Nat) : Exc (ℚ × Nat) :=
  if elemW = 32 then do
    let e ← s.get_float idx
    pure (e, idx + 32)
  else do
    let u ← s.get_bits_unsigned idx elemW
    pure (elemOffset + elemScale * (u : ℚ), idx + elemW)

/-- The keyframe loop of `decompress_quaternion_1_dof_keyframes`
(lines 173-198). Note that the source reads the bias field
unconditionally here (there is no `bias_bit_count > 0` guard, unlike the
other two decoders); a zero-width read contributes the value 0. -/
def dofLoop (ops : RealOps) (s : BitArray) (deltaW biasW : Nat) (biasScale : ℚ)
    (elemW : Nat) (elemScale elemOffset x y z : ℚ) (mult : Nat) :
    Nat → Nat → Nat → Exc (List QuaternionKeyframe × Nat)
  | 0, idx, _ => pure ([], idx)
  | n + 1, idx, fc => do
    let dt ← s.get_bits_unsigned idx deltaW
    let idx := idx + deltaW
    let b ← s.get_bits_signed idx biasW
    let bias := biasScale * (b : ℚ)
    let idx := idx + biasW
    let (element, idx) ← dofElement s elemW elemScale elemOffset idx
    let sn := ops.sin (1 / 2 * element)
    let w := ops.cos (1 / 2 * element)
    let fc := fc + dt + 1
    let (rest, idx) ← dofLoop ops s deltaW biasW biasScale elemW elemScale elemOffset x y z mult n idx fc
    pure (QuaternionKeyframe.mk (((fc * mult : Nat) : Int) - 1) bias
      (quatNormalized ops [w, x * sn, y * sn, z * sn]) :: rest, idx)

/-- `decompress_quaternion_1_dof_keyframes` (lines 120-200). -/
def decompress_quaternion_1_dof_keyframes (ops : RealOps) (s : BitArray)
    (index : Int) (fps : ℚ) : Exc (List QuaternionKeyframe) := do
  let idx := (-index).toNat
  let x ← s.get_float idx
  let idx := idx + 32
  let y ← s.get_float idx
  let idx := idx + 32
  let z ← s.get_float idx
  let idx := idx + 32
  let keyframe_count ← s.get_bits_unsigned idx 20
  let idx := idx + 20
  let delta_time_bit_count ← s.get_bits_unsigned idx 5
  let idx := idx + 5
  let bias_bit_count ← s.get_bits_unsigned idx 5
  let idx := idx + 5
  let bias_scale ← biasScaleOf s bias_bit_count
  let element_bit_count ← s.get_bits_unsigned idx 5
  let idx := idx + 5
  let element_bit_count := if element_bit_count = 0 then 32 else element_bit_count
  let (element_scale, element_offset, idx) ← dofElemHeader s element_bit_count idx
  let frame_count_multiplier := if fps = 60 then 1 else 2
  let (keyframes, _) ← dofLoop ops s delta_time_bit_count bias_bit_count bias_scale
    element_bit_count element_scale element_offset x y z frame_count_multiplier keyframe_count idx 0
  pure keyframes

/-- `ctypes.c_int32(value).value` for a nonnegative Python int. -/
def c_int32 (v : Nat) : Int := (((v : Int) + 2 ^ 31) % 2 ^ 32) - 2 ^ 31

/-- One component of a vector keyframe (lines 264-272 of the source): the
raw read, the sign-correction fixup, and the per-axis scale and offset.
In the `width == 32` branch the value read is a Python float, and
`ctypes.c_int32(value)` raises a TypeError when handed a float, so that
branch fails after the raw float has been read. -/
def vectorComponentValue (s : BitArray) (vw : Nat) (sc off : ℚ) (idx : Nat) :
    Exc (ℚ × Nat) :=
  if vw = 32 then do
    let _ ← s.get_float idx
    Except.error PyErr.typeError
  else do
    let v ← s.get_bits_unsigned idx vw
    let idx := idx + vw
    let value : ℚ := if c_int32 v < 0 then (((v &&& 1) ||| (v >>> 2) : Nat) : ℚ) else (v : ℚ)
    pure (value * sc + off, idx)

/-- The `for i in range(3)` component loop of a vector keyframe, over the
per-axis (scale, offset) pairs. -/
def vectorComponents (s : BitArray) (vw : Nat) :
    List (ℚ × ℚ) → Nat → Exc (List ℚ × Nat)
  | [], idx => pure ([], idx)
  | so :: rest, idx => do
    let (v, idx) ← vectorComponentValue s vw so.1 so.2 idx
    let (vs, idx) ← vectorComponents s vw rest idx
    pure (v :: vs, idx)

/-- The `for i in range(3)` header loop of `decompress_vector_keyframes`
(lines 237-244): it reads one (scale, offset) float pair per axis,
unconditionally, with the scale multiplied by the quantization scaler. -/
def vectorScaleOffsets (s : BitArray) (vScale : ℚ) :
    Nat → Nat → Exc (List (ℚ × ℚ) × Nat)
  | 0, idx => pure ([], idx)
  | n + 1, idx => do
    let sf ← s.get_float idx
    let idx := idx + 32
    let off ← s.get_float idx
    let idx := idx + 32
    let (rest, idx) ← vectorScaleOffsets s vScale n idx
    pure ((vScale * sf, off) :: rest, idx)

/-- The conditional quantization scaler of the vector header (line 235):
1 when the component width is 32, otherwise the unsigned scaler. -/
def vectorScaleOf (s : BitArray) (vw : Nat) : Exc ℚ :=
  if vw = 32 then pure (1 : ℚ) else s.unsigned_bits_to_float_scaler vw

/-- The conditional bias read of the vector keyframe loop (line 255): an
UNSIGNED field when the bias width is positive (the source uses
`get_bits_unsigned` here, unlike the quaternion decoder's signed read),
otherwise the constant 0 with no read. -/
def vectorBias (s : BitArray) (biasW : Nat) (biasScale : ℚ) (idx : Nat) : Exc ℚ :=
  if 0 < biasW then do
    let b ← s.get_bits_unsigned idx biasW
    pure (biasScale * (b : ℚ))
  else pure (0 : ℚ)

/-- The keyframe loop of `decompress_vector_keyframes` (lines 251-276). -/
def vectorLoop (s : BitArray) (deltaW biasW : Nat) (biasScale : ℚ) (vw : Nat)
    (sos : List (ℚ × ℚ)) (mult : Nat) (gt : GameType) :
    Nat → Nat → Nat → Exc (List VectorKeyframe × Nat)
  | 0, idx, _ => pure ([], idx)
  | n + 1, idx, fc => do
    let dt ← s.get_bits_unsigned idx deltaW
    let idx := idx + deltaW
    let bias ← vectorBias s biasW biasScale idx
    let idx := idx + biasW
    let idx := if gt ∈ [GameType.THESIMS2PETS, GameType.THESIMS2CASTAWAY, GameType.THESIMS3]
      then idx + 1 else idx
    let (vec, idx) ← vectorComponents s vw sos idx
    let fc := fc + dt + 1
    let (rest, idx) ← vectorLoop s deltaW biasW biasScale vw sos mult gt n idx fc
    pure (VectorKeyframe.mk (((fc * mult : Nat) : Int) - 1) bias vec :: rest, idx)

/-- `decompress_vector_keyframes` (lines 212-278). The component width is
read as a 5-bit field; the `width == 32` comparisons in the source are kept
as written. -/
def decompress_vector_keyframes (s : BitArray) (index : Int) (fps : ℚ)
    (gt : GameType) : Exc (List VectorKeyframe) := do
  let idx := (-index).toNat
  let keyframe_count ← s.get_bits_unsigned idx 20
  let idx := idx + 20
  let delta_time_bit_count ← s.get_bits_unsigned idx 5
  let idx := idx + 5
  let bias_bit_count ← s.get_bits_unsigned idx 5
  let idx := idx + 5
  let bias_scale ← biasScaleOf s bias_bit_count
  let vector_bit_count ← s.get_bits_unsigned idx 5
  let idx := idx + 5
  let vector_scale ← vectorScaleOf s vector_bit_count
  let (sos, idx) ← vectorScaleOffsets s vector_scale 3 idx
  let frame_count_multiplier := if fps = 60 then 1 else 2
  let (keyframes, _) ← vectorLoop s delta_time_bit_count bias_bit_count bias_scale
    vector_bit_count sos frame_count_multiplier gt keyframe_count idx 0
  pure keyframes

/-- The caller-selected byte order (`'<'` or `'>'` struct prefixes). -/
inductive Endianness where
  | le
  | be
deriving DecidableEq, Repr

/-- `Bone` from the source. (The source's type hints say `list[int]` for
the scale and location channels, but the values actually stored are
`VectorKeyframe` lists; the embedding follows the values.) -/
structure Bone where
  rotation_keyframes : List QuaternionKeyframe
  scale_keyframes : List VectorKeyframe
  location_keyframes : List VectorKeyframe
deriving DecidableEq, Repr

/-- `file.read(n)` over an in-memory byte list with an explicit position:
returns the bytes actually available (possibly fewer than `n`) and the new
position. -/
def fread (bytes : List Nat) (pos n : Nat) : List Nat × Nat :=
  let chunk := (bytes.drop pos).take n
  (chunk, pos + chunk.length)

/-- Little-endian assembly of a byte list into an unsigned integer. -/
def lePack : List Nat → Nat
  | [] => 0
  | b :: rest => b % 256 + 256 * lePack rest

/-- Byte assembly under the caller-selected endianness. -/
def packBytes (e : Endianness) (bs : List Nat) : Nat :=
  match e with
  | .le => lePack bs
  | .be => lePack bs.reverse

/-- `struct.unpack(endianness + 'I', file.read(4))`: a short read raises a
`struct.error`. -/
def unpackU32 (e : Endianness) (bytes : List Nat) (pos : Nat) : Exc (Nat × Nat) :=
  let (chunk, pos) := fread bytes pos 4
  if chunk.length = 4 then pure (packBytes e chunk, pos) else .error .structError

/-- `struct.unpack(endianness + 'i', file.read(4))`. -/
def unpackI32 (e : Endianness) (bytes : List Nat) (pos : Nat) : Exc (Int × Nat) := do
  let (u, p) ← unpackU32 e bytes pos
  if 2 ^ 31 ≤ u then pure ((u : Int) - 2 ^ 32, p) else pure ((u : Int), p)

/-- `struct.unpack(endianness + 'f', file.read(4))`. -/
def unpackF32 (e : Endianness) (bytes : List Nat) (pos : Nat) : Exc (ℚ × Nat) := do
  let (u, p) ← unpackU32 e bytes pos
  pure (ieee32ToRat u, p)

/-- `struct.unpack(endianness + 'B', file.read(1))`. -/
def unpackU8 (bytes : List Nat) (pos : Nat) : Exc (Nat × Nat) :=
  let (chunk, pos) := fread bytes pos 1
  if chunk.length = 1 then pure (packBytes .le chunk, pos) else .error .structError

/-- Modelled from the spec: `utils.read_null_terminated_string` (not under
the given sources) reads bytes up to and including a 0 terminator; per the
failure policy, a missing terminator (short read) aborts the decode with
the file-level failure kind. -/
def read_null_terminated_string (bytes : List Nat) (pos : Nat) : Exc (List Nat × Nat) :=
  match (bytes.drop pos).findIdx? (fun b => b = 0) with
  | some i => pure ((bytes.drop pos).take i, pos + i + 1)
  | none => .error .fileReadError

/-- `static_data[i]` — Python list indexing, raising an IndexError when out
of range. -/
def listGet (l : List ℚ) (i : Nat) : Exc ℚ :=
  match l.get? i with
  | some v => pure v
  | none => .error .indexError

/-- The version-gated 1-DOF flag resolution of `read_bone`
(lines 335-339): on the three newer game versions a flag bit is read at
the channel's bit offset and the (negative) channel index is decremented
by one before dispatch. -/
def rotationFlag (stream_data : BitArray) (gt : GameType) (index : Int) :
    Exc (Bool × Int) :=
  if gt ∈ [GameType.THESIMS2PETS, GameType.THESIMS2CASTAWAY, GameType.THESIMS3] then do
    let b ← stream_data.get_bit (-index).toNat
    pure (b, index - 1)
  else pure (false, index)

/-- The rotation channel resolution of `read_bone` (lines 319-347):
constant (static table) for a positive index, compressed for a negative
index (with the version-gated 1-DOF flag), identity default for index 0. -/
def rotationChannel (gt : GameType) (static_data : List ℚ)
    (stream_data : BitArray) (fps : ℚ) (ops : RealOps) (index : Int) :
    Exc (List QuaternionKeyframe) :=
  if 0 < index then do
    let qw ← listGet static_data (index.toNat + 3)
    let qx ← listGet static_data index.toNat
    let qy ← listGet static_data (index.toNat + 1)
    let qz ← listGet static_data (index.toNat + 2)
    pure [QuaternionKeyframe.mk 0 1 [qw, qx, qy, qz]]
  else if index < 0 then do
    let (is_1_dof, index) ← rotationFlag stream_data gt index
    if is_1_dof then decompress_quaternion_1_dof_keyframes ops stream_data index fps
    else decompress_quaternion_keyframes ops stream_data index fps gt
  else pure [QuaternionKeyframe.mk 0 1 [1, 0, 0, 0]]

/-- The scale/location channel resolution of `read_bone` (lines 349-373),
parameterized by the default vector ((1,1,1) for scale, (0,0,0) for
location). -/
def vectorChannel (gt : GameType) (static_data : List ℚ)
    (stream_data : BitArray) (fps : ℚ) (deflt : List ℚ) (index : Int) :
    Exc (List VectorKeyframe) :=
  if 0 < index then
    pure [VectorKeyframe.mk 0 1 ((static_data.drop index.toNat).take 3)]
  else if index < 0 then decompress_vector_keyframes stream_data index fps gt
  else pure [VectorKeyframe.mk 0 1 deflt]

/-- `read_bone` (lines 290-375): the three channel indices, the
version-gated padding, and the three-way channel resolution. -/
def read_bone (bytes : List Nat) (pos : Nat) (e : Endianness) (gt : GameType)
    (static_data : List ℚ) (stream_data : BitArray) (fps : ℚ) (ops : RealOps) :
    Exc (Bone × Nat) := do
  let (rotation_index, pos) ← unpackI32 e bytes pos
  let (scale_index, pos) ← unpackI32 e bytes pos
  let (location_index, pos) ← unpackI32 e bytes pos
  let pos := match gt with
    | .THESIMSBUSTINOUT => (fread bytes pos 16).2
    | .THEURBZ | .THESIMS2 | .THESIMS2PETS | .THESIMS2CASTAWAY | .THESIMS3 =>
      (fread bytes pos 20).2
    | _ => pos
  let rotation_keyframes ← rotationChannel gt static_data stream_data fps ops rotation_index
  let scale_keyframes ← vectorChannel gt static_data stream_data fps [1, 1, 1] scale_index
  let location_keyframes ← vectorChannel gt static_data stream_data fps [0, 0, 0] location_index
  pure (Bone.mk rotation_keyframes scale_keyframes location_keyframes, pos)

/-- `Animation` from the source. The name is kept as its raw bytes. -/
structure Animation where
  name : List Nat
  frame_count : Nat
  bones : List Bone
  intensity : ℚ
  flags : Nat
  blend_type : Nat
  blend_m1 : ℚ
  blend_m2 : ℚ
  blend_duration : ℚ
  blend_speed : ℚ
  rotation_accumulator : Nat
  end_action : Nat
deriving DecidableEq, Repr

/-- The static float table read (line 450), count-prefixed by the caller. -/
def readFloats (e : Endianness) (bytes : List Nat) :
    Nat → Nat → Exc (List ℚ × Nat)
  | 0, pos => pure ([], pos)
  | n + 1, pos => do
    let (f, pos) ← unpackF32 e bytes pos
    let (rest, pos) ← readFloats e bytes n pos
    pure (f :: rest, pos)

/-- The stream-data word read (line 456). -/
def readWords (e : Endianness) (bytes : List Nat) :
    Nat → Nat → Exc (List Nat × Nat)
  | 0, pos => pure ([], pos)
  | n + 1, pos => do
    let (w, pos) ← unpackU32 e bytes pos
    let (rest, pos) ← readWords e bytes n pos
    pure (w :: rest, pos)

/-- The bone table read (line 475), threading the file position. -/
def readBones (bytes : List Nat) (e : Endianness) (gt : GameType)
    (static_data : List ℚ) (stream_data : BitArray) (fps : ℚ) (ops : RealOps) :
    Nat → Nat → Exc (List Bone × Nat)
  | 0, pos => pure ([], pos)
  | n + 1, pos => do
    let (b, pos) ← read_bone bytes pos e gt static_data stream_data fps ops
    let (rest, pos) ← readBones bytes e gt static_data stream_data fps ops n pos
    pure (b :: rest, pos)

/-- The version-gated sound-event table (lines 479-484). -/
def readSounds (bytes : List Nat) : Nat → Nat → Exc Nat
  | 0, pos => pure pos
  | n + 1, pos => do
    let pos := (fread bytes pos 8).2
    let (_, pos) ← read_null_terminated_string bytes pos
    readSounds bytes n pos

/-- The version-gated sound-event table skip of `read_animation`
(lines 479-484). -/
def soundTable (bytes : List Nat) (e : Endianness) (gt : GameType) (pos : Nat) :
    Exc Nat :=
  if gt ∈ [GameType.THESIMS2, GameType.THESIMS2PETS, GameType.THESIMS2CASTAWAY] then do
    let (sound_count, pos) ← unpackU32 e bytes pos
    readSounds bytes sound_count pos
  else pure pos

/-- All fields of `read_animation` gathered just before the final 4-byte
padding check (state of the source at line 488). -/
structure PreAnim where
  name : List Nat
  frame_count : Nat
  bones : List Bone
  fps : ℚ
  intensity : ℚ
  flags : Nat
  blend_type : Nat
  blend_m1 : ℚ
  blend_m2 : ℚ
  blend_duration : ℚ
  blend_speed : ℚ
  rot_accum : Nat
  end_action : Nat
  pos : Nat
deriving DecidableEq, Repr

/-- `read_animation` up to the final padding check (lines 396-487). The
`match` on the game type for the bone record size is exhaustive over the
seven tags, so the source's defensive `case _: raise FileReadError` is
unreachable and has no counterpart here. -/
def readAnimationMain (bytes : List Nat) (e : Endianness) (gt : GameType)
    (ops : RealOps) : Exc PreAnim := do
  let pos := 0
  let pos := match gt with
    | .THEURBZ => (fread bytes pos 20).2
    | .THESIMS2 | .THESIMS2PETS | .THESIMS2CASTAWAY | .THESIMS3 => (fread bytes pos 16).2
    | _ => pos
  let (name, pos) ← read_null_terminated_string bytes pos
  let pos := match gt with
    | .THESIMS2 | .THESIMS2PETS | .THESIMS2CASTAWAY | .THESIMS3 => (fread bytes pos 4).2
    | _ => pos
  let (frame_count, pos) ← unpackU32 e bytes pos
  let pos := (fread bytes pos 12).2
  let pos := (fread bytes pos 12).2
  let (bone_count, pos) ← unpackU32 e bytes pos
  let bone_position := pos
  let bone_size : Nat := match gt with
    | .THESIMS => 12
    | .THESIMSBUSTINOUT => 28
    | .THEURBZ | .THESIMS2 | .THESIMS2PETS | .THESIMS2CASTAWAY | .THESIMS3 => 32
  let pos := bone_position + bone_count * bone_size + 4
  let pos := if gt ∈ [GameType.THESIMS2PETS, GameType.THESIMS2CASTAWAY, GameType.THESIMS3]
    then (fread bytes pos 4).2 else pos
  let (static_float_count, pos) ← unpackU32 e bytes pos
  let (static_data, pos) ← readFloats e bytes static_float_count pos
  let (stream_data_bit_count, pos) ← unpackU32 e bytes pos
  let stream_data_length := ((stream_data_bit_count + 0x1F) >>> 5) <<< 2
  let (stream_words, pos) ← readWords e bytes (stream_data_length / 4) pos
  let stream_data := BitArray.mk stream_words
  let (fps, pos) ← unpackF32 e bytes pos
  let (intensity, pos) ← unpackF32 e bytes pos
  let (flags, pos) ← unpackU32 e bytes pos
  let (blend_type, pos) ← unpackU8 bytes pos
  let (blend_m1, pos) ← unpackF32 e bytes pos
  let (blend_m2, pos) ← unpackF32 e bytes pos
  let (blend_duration, pos) ← unpackF32 e bytes pos
  let (blend_speed, pos) ← unpackF32 e bytes pos
  let (rot_accum, pos) ← unpackU8 bytes pos
  let (end_action, pos) ← unpackU8 bytes pos
  let end_position := pos
  let (bones, _) ← readBones bytes e gt static_data stream_data fps ops bone_count bone_position
  let pos := end_position
  let pos ← soundTable bytes e gt pos
  let pos := if gt = GameType.THESIMS3 then (fread bytes pos 4).2 else pos
  pure (PreAnim.mk name frame_count bones fps intensity flags blend_type blend_m1 blend_m2
    blend_duration blend_speed rot_accum end_action pos)

/-- The tail of `read_animation` (lines 489-507): the mandatory final
4-byte block, the frame-rate normalization of the frame count, and the
construction of the `Animation` value. -/
def readAnimationFinish (bytes : List Nat) (p : PreAnim) : Exc (Animation × Nat) :=
  let (chunk, pos) := fread bytes p.pos 4
  if chunk.length ≠ 4 then .error .fileReadError
  else
    let frame_count := if p.fps = 60 then p.frame_count else p.frame_count * 2
    pure (Animation.mk p.name frame_count p.bones p.intensity p.flags p.blend_type
      p.blend_m1 p.blend_m2 p.blend_duration p.blend_speed p.rot_accum p.end_action, pos)

/-- `read_animation` (lines 396-507), returning the constructed animation
together with the final file position. -/
def read_animation (bytes : List Nat) (e : Endianness) (gt : GameType)
    (ops : RealOps) : Exc (Animation × Nat) :=
  readAnimationMain bytes e gt ops >>= readAnimationFinish bytes

/-- The exception classes caught at the file-reading boundary
(line 521: `OSError, IndexError, ValueError, ZeroDivisionError,
struct.error`). -/
def caughtErr : PyErr → Bool
  | .osError | .indexError | .valueError | .zeroDivisionError | .structError => true
  | _ => false

/-- `read_file` (lines 510-522): runs `read_animation` over the file bytes,
rejects any trailing byte, and normalizes the caught exception classes into
`FileReadError`. A `FileReadError` raised inside the `try` block is not in
the caught tuple and propagates unchanged; any other uncaught class would
also propagate unchanged. -/
def read_file (bytes : List Nat) (gt : GameType) (e : Endianness)
    (ops : RealOps) : Exc Animation :=
  match read_animation bytes e gt ops with
  | .ok (animation, pos) =>
    if (fread bytes pos 1).1.length ≠ 0 then .error .fileReadError else .ok animation
  | .error err => if caughtErr err then .error .fileReadError else .error err

/-! ### Generic helper lemmas about `Except` computations -/

theorem bindOk {α β : Type} {x : Exc α} {f : α → Exc β} {b : β}
    (h : x >>= f = .ok b) : ∃ a, x = .ok a ∧ f a = .ok b := by
  cases x with
  | ok a => exact ⟨a, rfl, h⟩
  | error e => simp [Bind.bind, Except.bind] at h

theorem bindNoTE {α β : Type} {x : Exc α} {f : α → Exc β}
    (hx : x ≠ .error .typeError) (hf : ∀ a, f a ≠ .error .typeError) :
    x >>= f ≠ .error .typeError := by
  cases x with
  | ok a => simpa [Bind.bind, Except.bind] using hf a
  | error e => simpa [Bind.bind, Except.bind] using hx

/-! ### Concrete inputs used to settle the claims -/

/-- Stream for C1: header `count = 1`, `delta_width = 0`, `bias_width = 0`,
`quaternion_width = 2`, then one newer-layout keyframe with stored
components (1, 0, 0) and a clear negate bit. -/
def streamC1 : BitArray := BitArray.mk [4096, 1140850688]

/-- Stream for C2: one older-layout keyframe field group at bit 0 with
stored components (1, 0, 0) and a clear negate bit (width 2). -/
def streamC2 : BitArray := BitArray.mk [1073741824]

/-- Stream for C3 and C9: header `count = 2`, `delta_width = 4`,
`bias_width = 0`, `quaternion_width = 10`, keyframe deltas 0 and 3, all
stored components zero. -/
def streamC3 : BitArray := BitArray.mk [8705, 1073741824, 12582912, 0]

/-- Stream for C4: bit 22 set, all other bits clear. Decoding a
full-quaternion channel at bit offset 3 sees `keyframe_count = 1` and zero
widths; decoding at bit offset 2 sees `keyframe_count = 0`. -/
def streamC4 : BitArray := BitArray.mk [512, 0]

/-- Stream for C5 and C6: vector header `count = 1`, `delta_width = 0`,
`bias_width = 2`, `vector_width = 1`, zero scale/offset pairs, then one
keyframe whose two bias bits are `11`. -/
def streamC6 : BitArray := BitArray.mk [4104, 536870912, 0, 0, 0, 0, 0, 402653184]

/-- Bone record bytes for C4: channel indices `(-2, 0, 0)`, little-endian. -/
def bytesC4 : List Nat := [254, 255, 255, 255, 0, 0, 0, 0, 0, 0, 0, 0]

/-- A complete, well-formed THESIMS animation file: empty name, frame
count 10, one bone with all three channel indices 0, no static data, no
stream data, fps 60, and the final 4-byte padding block. -/
def bytesGood : List Nat :=
  [0] ++ [10, 0, 0, 0] ++ List.replicate 24 0 ++ [1, 0, 0, 0] ++ List.replicate 12 0 ++
  List.replicate 4 0 ++ List.replicate 8 0 ++ [0, 0, 112, 66] ++ List.replicate 8 0 ++
  [0] ++ List.replicate 16 0 ++ [0, 0] ++ List.replicate 4 0

/-- The animation value decoded from `bytesGood`. -/
def animGood : Animation :=
  Animation.mk [] 10
    [Bone.mk [QuaternionKeyframe.mk 0 1 [1, 0, 0, 0]]
      [VectorKeyframe.mk 0 1 [1, 1, 1]]
      [VectorKeyframe.mk 0 1 [0, 0, 0]]]
    0 0 0 0 0 0 0 0 0

/-! ### C1 -/

/-- C1: refuted (code bug). In the newer layout the source computes the
implicit component from `1 - (quat[1]^2 + quat[2]^2 + quat[3]^2)` at a
point where the stored components sit in `quat[0..2]` and `quat[3]` is
still 0, so the square of stored component 0 is dropped from the sum. On a
keyframe with stored components (1, 0, 0) the code reconstructs the
implicit component as 1 (first conjunct), while the claimed formula
`sqrt(max(0, 1 - (s0^2 + s1^2 + s2^2)))` evaluates to 0 (second
conjunct). Ordering and negation follow the claim; the sum does not. -/
theorem quat_new_layout_implicit_bug :
    decodeQuatRaw opsEx streamC1 1 2 GameType.THESIMS2PETS 35 = .ok ([1, 1, 0, 0], 43) ∧
    opsEx.sqrt (max 0 (1 - ((1 : ℚ) * 1 + 0 * 0 + 0 * 0))) = 0 ∧ (1 : ℚ) ≠ 0 := by
  refine ⟨by with_unfolding_all decide, by with_unfolding_all decide, by norm_num⟩

/-! ### Bit-field bounds -/

theorem bitAt_le_one (s : BitArray) (i : Nat) : s.bitAt i ≤ 1 :=
  Nat.le_of_lt_succ (Nat.mod_lt _ (by norm_num))

theorem bitsVal_lt (s : BitArray) (i : Nat) : ∀ w, s.bitsVal i w < 2 ^ w := by
  intro w
  induction w with
  | zero => simp [BitArray.bitsVal]
  | succ w ih =>
    have h := bitAt_le_one s (i + w)
    simp only [BitArray.bitsVal, pow_succ]
    omega

theorem get_bits_unsigned_ok_lt {s : BitArray} {i w u : Nat}
    (h : s.get_bits_unsigned i w = .ok u) : u < 2 ^ w := by
  unfold BitArray.get_bits_unsigned at h
  split at h
  · cases h
    exact bitsVal_lt s i w
  · cases h

/-! ### C2 -/

/-- C2: refuted. On an older-layout keyframe with stored components
(1, 0, 0) (width 2, scale 1, negate bit clear) the source's final
reordering `[quat[3], quat[0], quat[1], quat[2]]` produces
(stored2, implicit, stored0, stored1) = `[0, 0, 1, 0]`, not the claimed
(implicit, stored0, stored1, stored2) = `[0, 1, 0, 0]`. -/
theorem quat_old_layout_order_counterexample :
    decodeQuatRaw opsEx streamC2 1 2 GameType.THESIMS 0 = .ok ([0, 0, 1, 0], 7) ∧
    streamC2.get_bits_signed 0 2 = .ok 1 ∧
    streamC2.get_bits_signed 2 2 = .ok 0 ∧
    streamC2.get_bits_signed 4 2 = .ok 0 ∧
    streamC2.get_bit 6 = .ok false ∧
    opsEx.sqrt (max 0 (1 - ((1 : ℚ) * 1 + 0 * 0 + 0 * 0))) = 0 ∧
    ([0, 0, 1, 0] : List ℚ) ≠ [0, 1, 0, 0] := by
  with_unfolding_all decide

/-- C2 (amended): in the older layout the three stored components are the
three consecutive signed reads, no reserved bit is skipped, the implicit
component is `sqrt(max(0, 1 - (s0^2 + s1^2 + s2^2)))` negated exactly when
the negate bit is set, and the quaternion passed to normalization is
ordered (stored2, implicit, stored0, stored1). -/
theorem quat_old_layout_order :
    ∀ (ops : RealOps) (s : BitArray) (qScale : ℚ) (qw : Nat) (gt : GameType)
      (idx idx2 : Nat) (q : List ℚ),
    ops.sqrt 0 = 0 →
    gt ∉ [GameType.THESIMS2PETS, GameType.THESIMS2CASTAWAY, GameType.THESIMS3] →
    decodeQuatRaw ops s qScale qw gt idx = .ok (q, idx2) →
    ∃ (v0 v1 v2 : Int) (b : Bool),
      s.get_bits_signed idx qw = .ok v0 ∧
      s.get_bits_signed (idx + qw) qw = .ok v1 ∧
      s.get_bits_signed (idx + qw + qw) qw = .ok v2 ∧
      s.get_bit (idx + qw + qw + qw) = .ok b ∧
      idx2 = idx + qw + qw + qw + 1 ∧
      q = [qScale * (v2 : ℚ),
           (if b then -1 else 1) *
             ops.sqrt (max 0 (1 - (qScale * (v0 : ℚ) * (qScale * (v0 : ℚ)) +
               qScale * (v1 : ℚ) * (qScale * (v1 : ℚ)) +
               qScale * (v2 : ℚ) * (qScale * (v2 : ℚ))))),
           qScale * (v0 : ℚ), qScale * (v1 : ℚ)] := by
  intro ops s qScale qw gt idx idx2 q hsq hgt h
  unfold decodeQuatRaw at h
  rw [if_neg hgt] at h
  obtain ⟨v1, h1, h⟩ := bindOk h
  obtain ⟨v2, h2, h⟩ := bindOk h
  obtain ⟨v3, h3, h⟩ := bindOk h
  obtain ⟨b, hb, h⟩ := bindOk h
  refine ⟨v1, v2, v3, b, h1, h2, h3, hb, ?_, ?_⟩
  · have := h
    simp only [pure, Except.pure, Except.ok.injEq, Prod.mk.injEq] at this
    omega
  · simp only [pure, Except.pure, Except.ok.injEq, Prod.mk.injEq] at h
    obtain ⟨hq, -⟩ := h
    subst hq
    set A : ℚ := 1 - (qScale * (v1 : ℚ) * (qScale * (v1 : ℚ)) +
      qScale * (v2 : ℚ) * (qScale * (v2 : ℚ)) +
      qScale * (v3 : ℚ) * (qScale * (v3 : ℚ))) with hA
    by_cases h0 : 0 < A
    · rw [if_pos h0, max_eq_right h0.le]
      cases b <;> simp
    · rw [if_neg h0, max_eq_left (le_of_not_lt h0), hsq]
      cases b <;> simp

/-- C2 (witness): the amended theorem applied to the concrete
older-layout keyframe of `streamC2`. -/
theorem quat_old_layout_order_witness :
    opsEx.sqrt 0 = 0 ∧
    GameType.THESIMS ∉ [GameType.THESIMS2PETS, GameType.THESIMS2CASTAWAY, GameType.THESIMS3] ∧
    (∃ (v0 v1 v2 : Int) (b : Bool),
      streamC2.get_bits_signed 0 2 = .ok v0 ∧
      streamC2.get_bits_signed (0 + 2) 2 = .ok v1 ∧
      streamC2.get_bits_signed (0 + 2 + 2) 2 = .ok v2 ∧
      streamC2.get_bit (0 + 2 + 2 + 2) = .ok b ∧
      7 = 0 + 2 + 2 + 2 + 1 ∧
      ([0, 0, 1, 0] : List ℚ) = [1 * (v2 : ℚ),
        (if b then -1 else 1) *
          opsEx.sqrt (max 0 (1 - (1 * (v0 : ℚ) * (1 * (v0 : ℚ)) +
            1 * (v1 : ℚ) * (1 * (v1 : ℚ)) +
            1 * (v2 : ℚ) * (1 * (v2 : ℚ))))),
        1 * (v0 : ℚ), 1 * (v1 : ℚ)]) :=
  ⟨by with_unfolding_all decide, by decide,
    quat_old_layout_order opsEx streamC2 1 2 GameType.THESIMS 0 7 [0, 0, 1, 0]
      (by with_unfolding_all decide) (by decide) (by with_unfolding_all decide)⟩

/-! ### C6 -/

/-- C6: refuted. The vector decoder reads the bias field with
`get_bits_unsigned` (line 255), not `get_bits_signed` as the quaternion
decoder does (line 59). On a keyframe whose two bias bits are `11`
(bias width 2, scaler 1) the decoded bias is 3; the claimed signed
semantics would give `1 * (-1) = -1`. -/
theorem vector_bias_unsigned_counterexample :
    decompress_vector_keyframes streamC6 0 60 GameType.THESIMS =
      .ok [VectorKeyframe.mk 0 3 [0, 0, 0]] ∧
    streamC6.get_bits_signed 227 2 = .ok (-1) ∧
    streamC6.get_bits_unsigned 227 2 = .ok 3 ∧
    streamC6.signed_bits_to_float_scaler 2 = .ok 1 ∧
    (3 : ℚ) ≠ 1 * ((-1 : Int) : ℚ) := by
  with_unfolding_all decide

/-- C6 (amended): in the vector keyframe loop, when the bias width is
positive every keyframe's bias is the bias scaler times the UNSIGNED
(not two's-complement) value of the bias field, a value in
`[0, 2^bias_width)`. -/
theorem vector_bias_unsigned :
    ∀ (s : BitArray) (dtw biasW : Nat) (biasScale : ℚ) (vw : Nat)
      (sos : List (ℚ × ℚ)) (mult : Nat) (gt : GameType)
      (n idx fc idx2 : Nat) (ks : List VectorKeyframe),
    0 < biasW →
    vectorLoop s dtw biasW biasScale vw sos mult gt n idx fc = .ok (ks, idx2) →
    ∃ us : List Nat,
      ks.map (fun kf => kf.bias) = us.map (fun (u : Nat) => biasScale * (u : ℚ)) ∧
      ∀ u ∈ us, u < 2 ^ biasW := by
  intro s dtw biasW biasScale vw sos mult gt n
  induction n with
  | zero =>
    intro idx fc idx2 ks _ h
    simp only [vectorLoop, pure, Except.pure, Except.ok.injEq, Prod.mk.injEq] at h
    exact ⟨[], by simp [← h.1], by simp⟩
  | succ n ih =>
    intro idx fc idx2 ks hb h
    unfold vectorLoop at h
    obtain ⟨dt, hdt, h⟩ := bindOk h
    obtain ⟨bias, hbias, h⟩ := bindOk h
    unfold vectorBias at hbias
    rw [if_pos hb] at hbias
    obtain ⟨u, hu, hpure⟩ := bindOk hbias
    simp only [pure, Except.pure, Except.ok.injEq] at hpure
    obtain ⟨p, hvec, h⟩ := bindOk h
    obtain ⟨vec, idxa⟩ := p
    obtain ⟨p2, hrest, h⟩ := bindOk h
    obtain ⟨rest, idxb⟩ := p2
    simp only [pure, Except.pure, Except.ok.injEq, Prod.mk.injEq] at h
    obtain ⟨us', hmap, hlt⟩ := ih _ _ _ _ hb hrest
    refine ⟨u :: us', ?_, ?_⟩
    · rw [← h.1, List.map_cons, List.map_cons, hmap, ← hpure]
    · intro v hv
      rcases List.mem_cons.mp hv with hv | hv
      · subst hv
        exact get_bits_unsigned_ok_lt hu
      · exact hlt v hv

/-- C6 (amended, witness): the amended theorem applied to the single
keyframe of `streamC6` (bias width 2, bias bits `11`, bias 3). -/
theorem vector_bias_unsigned_witness :
    (0 : Nat) < 2 ∧
    ∃ us : List Nat,
      [VectorKeyframe.mk 0 3 [0, 0, 0]].map (fun kf => kf.bias) =
        us.map (fun (u : Nat) => (1 : ℚ) * (u : ℚ)) ∧
      ∀ u ∈ us, u < 2 ^ 2 :=
  ⟨by decide,
    vector_bias_unsigned streamC6 0 2 1 1 [(0, 0), (0, 0), (0, 0)] 1 GameType.THESIMS
      1 227 0 232 [VectorKeyframe.mk 0 3 [0, 0, 0]] (by decide)
      (by with_unfolding_all decide)⟩

/-! ### C5 -/

/-- C5: refuted. In the width-32 branch of the per-component code the raw
float is read but then `ctypes.c_int32` is applied to it, which raises a
TypeError; the component is never the raw float passed through. -/
theorem vector_width32_counterexample :
    vectorComponentValue (BitArray.mk [0]) 32 2 5 0 = .error .typeError ∧
    vectorComponentValue (BitArray.mk [0]) 32 2 5 0 ≠ .ok (ieee32ToRat 0, 32) := by
  with_unfolding_all decide

/-- The header loop for the three (scale, offset) pairs always advances
the cursor by 64 bits per pair. -/
theorem vectorScaleOffsets_advance :
    ∀ (s : BitArray) (vScale : ℚ) (n i i2 : Nat) (l : List (ℚ × ℚ)),
    vectorScaleOffsets s vScale n i = .ok (l, i2) → i2 = i + 64 * n := by
  intro s vScale n
  induction n with
  | zero =>
    intro i i2 l h
    simp only [vectorScaleOffsets, pure, Except.pure, Except.ok.injEq, Prod.mk.injEq] at h
    omega
  | succ n ih =>
    intro i i2 l h
    unfold vectorScaleOffsets at h
    obtain ⟨sf, _, h⟩ := bindOk h
    obtain ⟨off, _, h⟩ := bindOk h
    obtain ⟨p, hrest, h⟩ := bindOk h
    obtain ⟨rest, idxb⟩ := p
    simp only [pure, Except.pure, Except.ok.injEq, Prod.mk.injEq] at h
    have := ih _ _ _ hrest
    omega

/-- C5 (amended): the vector decoder's component field width is read as a
5-bit field, hence is always below 32 (and width 0 is not remapped to 32);
the width-32 branch of the per-component code never yields a value (the
sign correction applies a 32-bit integer conversion to a float and raises
a TypeError); and the three (scale, offset) header pairs are read
unconditionally — whenever the decoder succeeds, the 192 header-pair bits
after the 35 header bits were consumed. -/
theorem vector_width32_amended :
    (∀ (s : BitArray) (i u : Nat), s.get_bits_unsigned i 5 = .ok u → u < 32) ∧
    (∀ (s : BitArray) (sc off : ℚ) (idx : Nat) (r : ℚ × Nat),
      vectorComponentValue s 32 sc off idx ≠ .ok r) ∧
    (∀ (s : BitArray) (index : Int) (fps : ℚ) (gt : GameType)
      (ks : List VectorKeyframe),
      decompress_vector_keyframes s index fps gt = .ok ks →
      ∃ (vScale : ℚ) (sos : List (ℚ × ℚ)),
        vectorScaleOffsets s vScale 3 ((-index).toNat + 35) =
          .ok (sos, (-index).toNat + 35 + 192)) := by
  refine ⟨?_, ?_, ?_⟩
  · intro s i u h
    simpa using get_bits_unsigned_ok_lt h
  · intro s sc off idx r
    unfold vectorComponentValue
    rw [if_pos rfl]
    cases hgf : s.get_float idx with
    | ok v => simp [Bind.bind, Except.bind, hgf]
    | error e => simp [Bind.bind, Except.bind, hgf]
  · intro s index fps gt ks h
    unfold decompress_vector_keyframes at h
    obtain ⟨count, hcount, h⟩ := bindOk h
    obtain ⟨dtw, hdtw, h⟩ := bindOk h
    obtain ⟨biasW, hbiasW, h⟩ := bindOk h
    obtain ⟨biasScale, hbiasScale, h⟩ := bindOk h
    obtain ⟨vw, hvw, h⟩ := bindOk h
    obtain ⟨vScale, hvScale, h⟩ := bindOk h
    obtain ⟨p, hsos, h⟩ := bindOk h
    obtain ⟨sos, idxs⟩ := p
    have hadv := vectorScaleOffsets_advance _ _ _ _ _ _ hsos
    refine ⟨vScale, sos, ?_⟩
    have heq : (-index).toNat + 20 + 5 + 5 + 5 = (-index).toNat + 35 := by omega
    rw [heq] at hsos
    have heq2 : (-index).toNat + 35 + 192 = idxs := by omega
    rw [heq2]
    exact hsos

/-- C5 (amended, witness): the three amended conjuncts applied to the
concrete stream `streamC6` (width field 1 at bit 30, successful decode). -/
theorem vector_width32_amended_witness :
    (streamC6.get_bits_unsigned 30 5 = .ok 1 ∧ (1 : Nat) < 32) ∧
    (vectorComponentValue (BitArray.mk [0]) 32 2 5 0 ≠ .ok (0, 32)) ∧
    (decompress_vector_keyframes streamC6 0 60 GameType.THESIMS =
        .ok [VectorKeyframe.mk 0 3 [0, 0, 0]] ∧
      ∃ (vScale : ℚ) (sos : List (ℚ × ℚ)),
        vectorScaleOffsets streamC6 vScale 3 ((-(0 : Int)).toNat + 35) =
          .ok (sos, (-(0 : Int)).toNat + 35 + 192)) :=
  ⟨⟨by with_unfolding_all decide,
      vector_width32_amended.1 streamC6 30 1 (by with_unfolding_all decide)⟩,
    vector_width32_amended.2.1 (BitArray.mk [0]) 2 5 0 (0, 32),
    by with_unfolding_all decide,
    vector_width32_amended.2.2 streamC6 0 60 GameType.THESIMS
      [VectorKeyframe.mk 0 3 [0, 0, 0]] (by with_unfolding_all decide)⟩

/-! ### Frame accumulation -/

/-- The running sum of `(delta + 1)` over the first `k + 1` keyframe
deltas. -/
def sumDeltas (ds : List Nat) (k : Nat) : Nat :=
  ((ds.take (k + 1)).map (fun d => d + 1)).sum

theorem sumDeltas_cons_zero (d : Nat) (ds : List Nat) :
    sumDeltas (d :: ds) 0 = d + 1 := by
  simp [sumDeltas]

theorem sumDeltas_cons_succ (d : Nat) (ds : List Nat) (k : Nat) :
    sumDeltas (d :: ds) (k + 1) = (d + 1) + sumDeltas ds k := by
  simp [sumDeltas, List.take_succ_cons]

/-- Frames produced by the quaternion keyframe loop are the running sums
of `(delta + 1)`, shifted by the incoming accumulator, scaled by the
multiplier, minus one. -/
theorem quatLoop_frames (ops : RealOps) (s : BitArray) (dtw biasW : Nat)
    (biasScale qScale : ℚ) (qw mult : Nat) (gt : GameType) :
    ∀ (n idx fc idx2 : Nat) (ks : List QuaternionKeyframe),
    quatLoop ops s dtw biasW biasScale qScale qw mult gt n idx fc = .ok (ks, idx2) →
    ∃ ds : List Nat, ds.length = ks.length ∧
      ∀ (k : Nat) (hk : k < ks.length),
        (ks.get ⟨k, hk⟩).frame = (((fc + sumDeltas ds k) * mult : Nat) : Int) - 1 := by
  intro n
  induction n with
  | zero =>
    intro idx fc idx2 ks h
    simp only [quatLoop, pure, Except.pure, Except.ok.injEq, Prod.mk.injEq] at h
    obtain ⟨hks, -⟩ := h
    subst hks
    exact ⟨[], rfl, by intro k hk; cases hk⟩
  | succ n ih =>
    intro idx fc idx2 ks h
    unfold quatLoop at h
    obtain ⟨dt, hdt, h⟩ := bindOk h
    obtain ⟨bias, hbias, h⟩ := bindOk h
    obtain ⟨p, hq, h⟩ := bindOk h
    obtain ⟨quat, idxa⟩ := p
    obtain ⟨p2, hrest, h⟩ := bindOk h
    obtain ⟨rest, idxb⟩ := p2
    simp only [pure, Except.pure, Except.ok.injEq, Prod.mk.injEq] at h
    obtain ⟨hks, -⟩ := h
    subst hks
    obtain ⟨ds, hlen, hfr⟩ := ih _ _ _ _ hrest
    refine ⟨dt :: ds, by simp [hlen], ?_⟩
    intro k hk
    match k with
    | 0 =>
      simp only [List.get, sumDeltas_cons_zero]
      have : fc + dt + 1 = fc + (dt + 1) := by omega
      rw [this]
    | k + 1 =>
      simp only [List.get, sumDeltas_cons_succ]
      have hk2 : k < rest.length := by
        simp only [List.length_cons] at hk
        omega
      have := hfr k hk2
      rw [this]
      have : fc + dt + 1 + sumDeltas ds k = fc + (dt + 1 + sumDeltas ds k) := by omega
      rw [this]

/-- Frames produced by the 1-DOF keyframe loop are the running sums of
`(delta + 1)`, shifted, scaled and shifted down the same way. -/
theorem dofLoop_frames (ops : RealOps) (s : BitArray) (dtw biasW : Nat)
    (biasScale : ℚ) (elemW : Nat) (elemScale elemOffset x y z : ℚ) (mult : Nat) :
    ∀ (n idx fc idx2 : Nat) (ks : List QuaternionKeyframe),
    dofLoop ops s dtw biasW biasScale elemW elemScale elemOffset x y z mult n idx fc =
      .ok (ks, idx2) →
    ∃ ds : List Nat, ds.length = ks.length ∧
      ∀ (k : Nat) (hk : k < ks.length),
        (ks.get ⟨k, hk⟩).frame = (((fc + sumDeltas ds k) * mult : Nat) : Int) - 1 := by
  intro n
  induction n with
  | zero =>
    intro idx fc idx2 ks h
    simp only [dofLoop, pure, Except.pure, Except.ok.injEq, Prod.mk.injEq] at h
    obtain ⟨hks, -⟩ := h
    subst hks
    exact ⟨[], rfl, by intro k hk; cases hk⟩
  | succ n ih =>
    intro idx fc idx2 ks h
    unfold dofLoop at h
    obtain ⟨dt, hdt, h⟩ := bindOk h
    obtain ⟨b, hbb, h⟩ := bindOk h
    obtain ⟨p, he, h⟩ := bindOk h
    obtain ⟨element, idxa⟩ := p
    obtain ⟨p2, hrest, h⟩ := bindOk h
    obtain ⟨rest, idxb⟩ := p2
    simp only [pure, Except.pure, Except.ok.injEq, Prod.mk.injEq] at h
    obtain ⟨hks, -⟩ := h
    subst hks
    obtain ⟨ds, hlen, hfr⟩ := ih _ _ _ _ hrest
    refine ⟨dt :: ds, by simp [hlen], ?_⟩
    intro k hk
    match k with
    | 0 =>
      simp only [List.get, sumDeltas_cons_zero]
      have : fc + dt + 1 = fc + (dt + 1) := by omega
      rw [this]
    | k + 1 =>
      simp only [List.get, sumDeltas_cons_succ]
      have hk2 : k < rest.length := by
        simp only [List.length_cons] at hk
        omega
      have := hfr k hk2
      rw [this]
      have : fc + dt + 1 + sumDeltas ds k = fc + (dt + 1 + sumDeltas ds k) := by omega
      rw [this]

/-- Frames produced by the vector keyframe loop are the running sums of
`(delta + 1)`, shifted, scaled and shifted down the same way. -/
theorem vectorLoop_frames (s : BitArray) (dtw biasW : Nat) (biasScale : ℚ)
    (vw : Nat) (sos : List (ℚ × ℚ)) (mult : Nat) (gt : GameType) :
    ∀ (n idx fc idx2 : Nat) (ks : List VectorKeyframe),
    vectorLoop s dtw biasW biasScale vw sos mult gt n idx fc = .ok (ks, idx2) →
    ∃ ds : List Nat, ds.length = ks.length ∧
      ∀ (k : Nat) (hk : k < ks.length),
        (ks.get ⟨k, hk⟩).frame = (((fc + sumDeltas ds k) * mult : Nat) : Int) - 1 := by
  intro n
  induction n with
  | zero =>
    intro idx fc idx2 ks h
    simp only [vectorLoop, pure, Except.pure, Except.ok.injEq, Prod.mk.injEq] at h
    obtain ⟨hks, -⟩ := h
    subst hks
    exact ⟨[], rfl, by intro k hk; cases hk⟩
  | succ n ih =>
    intro idx fc idx2 ks h
    unfold vectorLoop at h
    obtain ⟨dt, hdt, h⟩ := bindOk h
    obtain ⟨bias, hbias, h⟩ := bindOk h
    obtain ⟨p, hv, h⟩ := bindOk h
    obtain ⟨vec, idxa⟩ := p
    obtain ⟨p2, hrest, h⟩ := bindOk h
    obtain ⟨rest, idxb⟩ := p2
    simp only [pure, Except.pure, Except.ok.injEq, Prod.mk.injEq] at h
    obtain ⟨hks, -⟩ := h
    subst hks
    obtain ⟨ds, hlen, hfr⟩ := ih _ _ _ _ hrest
    refine ⟨dt :: ds, by simp [hlen], ?_⟩
    intro k hk
    match k with
    | 0 =>
      simp only [List.get, sumDeltas_cons_zero]
      have : fc + dt + 1 = fc + (dt + 1) := by omega
      rw [this]
    | k + 1 =>
      simp only [List.get, sumDeltas_cons_succ]
      have hk2 : k < rest.length := by
        simp only [List.length_cons] at hk
        omega
      have := hfr k hk2
      rw [this]
      have : fc + dt + 1 + sumDeltas ds k = fc + (dt + 1 + sumDeltas ds k) := by omega
      rw [this]

/-- A concrete 1-DOF rotation stream: zero axis floats, one keyframe,
zero delta/bias widths, element width 1, zero scale/offset headers. -/
def dofStream : BitArray := BitArray.mk [0, 0, 0, 4096, 536870912, 0, 0]

/-! ### C3 -/

/-- C3: confirmed. For each of the three decoders, every successful
decode admits a delta list (the decoded delta-time fields) such that the
frame number of keyframe `k` is the running sum of `(delta + 1)` over
keyframes `0..k`, times the multiplier (1 if fps = 60, else 2), minus 1;
and the spec's synthetic two-keyframe stream with deltas {0, 3} decodes to
frames {0, 4} at 60 fps and {1, 9} otherwise. -/
theorem decoder_frame_numbers :
    (∀ (ops : RealOps) (s : BitArray) (index : Int) (fps : ℚ) (gt : GameType)
      (ks : List QuaternionKeyframe),
      decompress_quaternion_keyframes ops s index fps gt = .ok ks →
      ∃ ds : List Nat, ds.length = ks.length ∧
        ∀ (k : Nat) (hk : k < ks.length),
          (ks.get ⟨k, hk⟩).frame =
            ((sumDeltas ds k * (if fps = 60 then 1 else 2) : Nat) : Int) - 1) ∧
    (∀ (ops : RealOps) (s : BitArray) (index : Int) (fps : ℚ)
      (ks : List QuaternionKeyframe),
      decompress_quaternion_1_dof_keyframes ops s index fps = .ok ks →
      ∃ ds : List Nat, ds.length = ks.length ∧
        ∀ (k : Nat) (hk : k < ks.length),
          (ks.get ⟨k, hk⟩).frame =
            ((sumDeltas ds k * (if fps = 60 then 1 else 2) : Nat) : Int) - 1) ∧
    (∀ (s : BitArray) (index : Int) (fps : ℚ) (gt : GameType)
      (ks : List VectorKeyframe),
      decompress_vector_keyframes s index fps gt = .ok ks →
      ∃ ds : List Nat, ds.length = ks.length ∧
        ∀ (k : Nat) (hk : k < ks.length),
          (ks.get ⟨k, hk⟩).frame =
            ((sumDeltas ds k * (if fps = 60 then 1 else 2) : Nat) : Int) - 1) ∧
    (decompress_quaternion_keyframes opsEx streamC3 0 60 GameType.THESIMS).map
      (fun l => l.map (fun kf => kf.frame)) = .ok [0, 4] ∧
    (decompress_quaternion_keyframes opsEx streamC3 0 30 GameType.THESIMS).map
      (fun l => l.map (fun kf => kf.frame)) = .ok [1, 9] := by
  refine ⟨?_, ?_, ?_, by with_unfolding_all decide, by with_unfolding_all decide⟩
  · intro ops s index fps gt ks h
    unfold decompress_quaternion_keyframes at h
    obtain ⟨count, hcount, h⟩ := bindOk h
    obtain ⟨dtw, hdtw, h⟩ := bindOk h
    obtain ⟨biasW, hbiasW, h⟩ := bindOk h
    obtain ⟨biasScale, hbiasScale, h⟩ := bindOk h
    obtain ⟨qw, hqw, h⟩ := bindOk h
    obtain ⟨qScale, hqScale, h⟩ := bindOk h
    obtain ⟨p, hloop, h⟩ := bindOk h
    obtain ⟨kfs, idx2⟩ := p
    simp only [pure, Except.pure, Except.ok.injEq] at h
    subst h
    obtain ⟨ds, hlen, hfr⟩ := quatLoop_frames _ _ _ _ _ _ _ _ _ _ _ _ _ _ hloop
    exact ⟨ds, hlen, by intro k hk; simpa using hfr k hk⟩
  · intro ops s index fps ks h
    unfold decompress_quaternion_1_dof_keyframes at h
    obtain ⟨x, hx, h⟩ := bindOk h
    obtain ⟨y, hy, h⟩ := bindOk h
    obtain ⟨z, hz, h⟩ := bindOk h
    obtain ⟨count, hcount, h⟩ := bindOk h
    obtain ⟨dtw, hdtw, h⟩ := bindOk h
    obtain ⟨biasW, hbiasW, h⟩ := bindOk h
    obtain ⟨biasScale, hbiasScale, h⟩ := bindOk h
    obtain ⟨ew, hew, h⟩ := bindOk h
    obtain ⟨ph, hhdr, h⟩ := bindOk h
    obtain ⟨eScale, eOffset, idxh⟩ := ph
    obtain ⟨p, hloop, h⟩ := bindOk h
    obtain ⟨kfs, idx2⟩ := p
    simp only [pure, Except.pure, Except.ok.injEq] at h
    subst h
    obtain ⟨ds, hlen, hfr⟩ := dofLoop_frames _ _ _ _ _ _ _ _ _ _ _ _ _ _ _ _ _ hloop
    exact ⟨ds, hlen, by intro k hk; simpa using hfr k hk⟩
  · intro s index fps gt ks h
    unfold decompress_vector_keyframes at h
    obtain ⟨count, hcount, h⟩ := bindOk h
    obtain ⟨dtw, hdtw, h⟩ := bindOk h
    obtain ⟨biasW, hbiasW, h⟩ := bindOk h
    obtain ⟨biasScale, hbiasScale, h⟩ := bindOk h
    obtain ⟨vw, hvw, h⟩ := bindOk h
    obtain ⟨vScale, hvScale, h⟩ := bindOk h
    obtain ⟨ps, hsos, h⟩ := bindOk h
    obtain ⟨sos, idxs⟩ := ps
    obtain ⟨p, hloop, h⟩ := bindOk h
    obtain ⟨kfs, idx2⟩ := p
    simp only [pure, Except.pure, Except.ok.injEq] at h
    subst h
    obtain ⟨ds, hlen, hfr⟩ := vectorLoop_frames _ _ _ _ _ _ _ _ _ _ _ _ _ hloop
    exact ⟨ds, hlen, by intro k hk; simpa using hfr k hk⟩

/-- C3 (witness): the three universal conjuncts applied to concrete
successful decodes (two quaternion keyframes, one 1-DOF keyframe, one
vector keyframe). -/
theorem decoder_frame_numbers_witness :
    (∃ ds : List Nat,
      ds.length = 2 ∧
      ∀ (k : Nat)
        (hk : k < ([QuaternionKeyframe.mk 0 0 [0, 1, 0, 0],
          QuaternionKeyframe.mk 4 0 [0, 1, 0, 0]] : List QuaternionKeyframe).length),
        (([QuaternionKeyframe.mk 0 0 [0, 1, 0, 0],
          QuaternionKeyframe.mk 4 0 [0, 1, 0, 0]] : List QuaternionKeyframe).get ⟨k, hk⟩).frame =
          ((sumDeltas ds k * (if (60 : ℚ) = 60 then 1 else 2) : Nat) : Int) - 1) ∧
    (∃ ds : List Nat,
      ds.length = 1 ∧
      ∀ (k : Nat)
        (hk : k < ([QuaternionKeyframe.mk 0 0 [1, 0, 0, 0]] : List QuaternionKeyframe).length),
        (([QuaternionKeyframe.mk 0 0 [1, 0, 0, 0]] : List QuaternionKeyframe).get ⟨k, hk⟩).frame =
          ((sumDeltas ds k * (if (60 : ℚ) = 60 then 1 else 2) : Nat) : Int) - 1) ∧
    (∃ ds : List Nat,
      ds.length = 1 ∧
      ∀ (k : Nat)
        (hk : k < ([VectorKeyframe.mk 0 3 [0, 0, 0]] : List VectorKeyframe).length),
        (([VectorKeyframe.mk 0 3 [0, 0, 0]] : List VectorKeyframe).get ⟨k, hk⟩).frame =
          ((sumDeltas ds k * (if (60 : ℚ) = 60 then 1 else 2) : Nat) : Int) - 1) :=
  ⟨by
    obtain ⟨ds, h1, h2⟩ := decoder_frame_numbers.1 opsEx streamC3 0 60 GameType.THESIMS
      [QuaternionKeyframe.mk 0 0 [0, 1, 0, 0], QuaternionKeyframe.mk 4 0 [0, 1, 0, 0]]
      (by with_unfolding_all decide)
    exact ⟨ds, h1, h2⟩,
   by
    obtain ⟨ds, h1, h2⟩ := decoder_frame_numbers.2.1 opsEx dofStream 0 60
      [QuaternionKeyframe.mk 0 0 [1, 0, 0, 0]] (by with_unfolding_all decide)
    exact ⟨ds, h1, h2⟩,
   by
    obtain ⟨ds, h1, h2⟩ := decoder_frame_numbers.2.2.1 streamC6 0 60 GameType.THESIMS
      [VectorKeyframe.mk 0 3 [0, 0, 0]] (by with_unfolding_all decide)
    exact ⟨ds, h1, h2⟩⟩

/-! ### C9 -/

/-- Frames produced by the quaternion keyframe loop are bounded below by
the incoming accumulator and strictly increasing. -/
theorem quatLoop_mono (ops : RealOps) (s : BitArray) (dtw biasW : Nat)
    (biasScale qScale : ℚ) (qw mult : Nat) (gt : GameType) (hm : 0 < mult) :
    ∀ (n idx fc idx2 : Nat) (ks : List QuaternionKeyframe),
    quatLoop ops s dtw biasW biasScale qScale qw mult gt n idx fc = .ok (ks, idx2) →
    (∀ kf ∈ ks, (((fc + 1) * mult : Nat) : Int) - 1 ≤ kf.frame) ∧
    ks.Pairwise (fun a b => a.frame < b.frame) := by
  intro n
  induction n with
  | zero =>
    intro idx fc idx2 ks h
    simp only [quatLoop, pure, Except.pure, Except.ok.injEq, Prod.mk.injEq] at h
    obtain ⟨hks, -⟩ := h
    subst hks
    simp
  | succ n ih =>
    intro idx fc idx2 ks h
    unfold quatLoop at h
    obtain ⟨dt, hdt, h⟩ := bindOk h
    obtain ⟨bias, hbias, h⟩ := bindOk h
    obtain ⟨p, hq, h⟩ := bindOk h
    obtain ⟨quat, idxa⟩ := p
    obtain ⟨p2, hrest, h⟩ := bindOk h
    obtain ⟨rest, idxb⟩ := p2
    simp only [pure, Except.pure, Except.ok.injEq, Prod.mk.injEq] at h
    obtain ⟨hks, -⟩ := h
    subst hks
    obtain ⟨hbound, hpw⟩ := ih _ _ _ _ hrest
    have e1 : (fc + 1) * mult + dt * mult = (fc + dt + 1) * mult := by ring
    have e2 : (fc + dt + 1) * mult + mult = (fc + dt + 1 + 1) * mult := by ring
    constructor
    · intro kf hkf
      rcases List.mem_cons.mp hkf with hkf | hkf
      · subst hkf
        simp only []
        omega
      · have := hbound kf hkf
        omega
    · rw [List.pairwise_cons]
      refine ⟨fun b hb => ?_, hpw⟩
      have := hbound b hb
      simp only []
      omega

/-- Frames produced by the 1-DOF keyframe loop are bounded below by the
incoming accumulator and strictly increasing. -/
theorem dofLoop_mono (ops : RealOps) (s : BitArray) (dtw biasW : Nat)
    (biasScale : ℚ) (elemW : Nat) (elemScale elemOffset x y z : ℚ) (mult : Nat)
    (hm : 0 < mult) :
    ∀ (n idx fc idx2 : Nat) (ks : List QuaternionKeyframe),
    dofLoop ops s dtw biasW biasScale elemW elemScale elemOffset x y z mult n idx fc =
      .ok (ks, idx2) →
    (∀ kf ∈ ks, (((fc + 1) * mult : Nat) : Int) - 1 ≤ kf.frame) ∧
    ks.Pairwise (fun a b => a.frame < b.frame) := by
  intro n
  induction n with
  | zero =>
    intro idx fc idx2 ks h
    simp only [dofLoop, pure, Except.pure, Except.ok.injEq, Prod.mk.injEq] at h
    obtain ⟨hks, -⟩ := h
    subst hks
    simp
  | succ n ih =>
    intro idx fc idx2 ks h
    unfold dofLoop at h
    obtain ⟨dt, hdt, h⟩ := bindOk h
    obtain ⟨b, hbb, h⟩ := bindOk h
    obtain ⟨p, he, h⟩ := bindOk h
    obtain ⟨element, idxa⟩ := p
    obtain ⟨p2, hrest, h⟩ := bindOk h
    obtain ⟨rest, idxb⟩ := p2
    simp only [pure, Except.pure, Except.ok.injEq, Prod.mk.injEq] at h
    obtain ⟨hks, -⟩ := h
    subst hks
    obtain ⟨hbound, hpw⟩ := ih _ _ _ _ hrest
    have e1 : (fc + 1) * mult + dt * mult = (fc + dt + 1) * mult := by ring
    have e2 : (fc + dt + 1) * mult + mult = (fc + dt + 1 + 1) * mult := by ring
    constructor
    · intro kf hkf
      rcases List.mem_cons.mp hkf with hkf | hkf
      · subst hkf
        simp only []
        omega
      · have := hbound kf hkf
        omega
    · rw [List.pairwise_cons]
      refine ⟨fun c hc => ?_, hpw⟩
      have := hbound c hc
      simp only []
      omega

/-- Frames produced by the vector keyframe loop are bounded below by the
incoming accumulator and strictly increasing. -/
theorem vectorLoop_mono (s : BitArray) (dtw biasW : Nat) (biasScale : ℚ)
    (vw : Nat) (sos : List (ℚ × ℚ)) (mult : Nat) (gt : GameType) (hm : 0 < mult) :
    ∀ (n idx fc idx2 : Nat) (ks : List VectorKeyframe),
    vectorLoop s dtw biasW biasScale vw sos mult gt n idx fc = .ok (ks, idx2) →
    (∀ kf ∈ ks, (((fc + 1) * mult : Nat) : Int) - 1 ≤ kf.frame) ∧
    ks.Pairwise (fun a b => a.frame < b.frame) := by
  intro n
  induction n with
  | zero =>
    intro idx fc idx2 ks h
    simp only [vectorLoop, pure, Except.pure, Except.ok.injEq, Prod.mk.injEq] at h
    obtain ⟨hks, -⟩ := h
    subst hks
    simp
  | succ n ih =>
    intro idx fc idx2 ks h
    unfold vectorLoop at h
    obtain ⟨dt, hdt, h⟩ := bindOk h
    obtain ⟨bias, hbias, h⟩ := bindOk h
    obtain ⟨p, hv, h⟩ := bindOk h
    obtain ⟨vec, idxa⟩ := p
    obtain ⟨p2, hrest, h⟩ := bindOk h
    obtain ⟨rest, idxb⟩ := p2
    simp only [pure, Except.pure, Except.ok.injEq, Prod.mk.injEq] at h
    obtain ⟨hks, -⟩ := h
    subst hks
    obtain ⟨hbound, hpw⟩ := ih _ _ _ _ hrest
    have e1 : (fc + 1) * mult + dt * mult = (fc + dt + 1) * mult := by ring
    have e2 : (fc + dt + 1) * mult + mult = (fc + dt + 1 + 1) * mult := by ring
    constructor
    · intro kf hkf
      rcases List.mem_cons.mp hkf with hkf | hkf
      · subst hkf
        simp only []
        omega
      · have := hbound kf hkf
        omega
    · rw [List.pairwise_cons]
      refine ⟨fun c hc => ?_, hpw⟩
      have := hbound c hc
      simp only []
      omega

/-- C9: confirmed. For each of the three decoders, the frame numbers of
every successfully decoded keyframe sequence are strictly increasing in
sequence order. -/
theorem decoder_frames_strictly_increasing :
    (∀ (ops : RealOps) (s : BitArray) (index : Int) (fps : ℚ) (gt : GameType)
      (ks : List QuaternionKeyframe),
      decompress_quaternion_keyframes ops s index fps gt = .ok ks →
      ks.Pairwise (fun a b => a.frame < b.frame)) ∧
    (∀ (ops : RealOps) (s : BitArray) (index : Int) (fps : ℚ)
      (ks : List QuaternionKeyframe),
      decompress_quaternion_1_dof_keyframes ops s index fps = .ok ks →
      ks.Pairwise (fun a b => a.frame < b.frame)) ∧
    (∀ (s : BitArray) (index : Int) (fps : ℚ) (gt : GameType)
      (ks : List VectorKeyframe),
      decompress_vector_keyframes s index fps gt = .ok ks →
      ks.Pairwise (fun a b => a.frame < b.frame)) := by
  have hmult : ∀ fps : ℚ, 0 < (if fps = 60 then 1 else 2 : Nat) := by
    intro fps
    split <;> norm_num
  refine ⟨?_, ?_, ?_⟩
  · intro ops s index fps gt ks h
    unfold decompress_quaternion_keyframes at h
    obtain ⟨count, hcount, h⟩ := bindOk h
    obtain ⟨dtw, hdtw, h⟩ := bindOk h
    obtain ⟨biasW, hbiasW, h⟩ := bindOk h
    obtain ⟨biasScale, hbiasScale, h⟩ := bindOk h
    obtain ⟨qw, hqw, h⟩ := bindOk h
    obtain ⟨qScale, hqScale, h⟩ := bindOk h
    obtain ⟨p, hloop, h⟩ := bindOk h
    obtain ⟨kfs, idx2⟩ := p
    simp only [pure, Except.pure, Except.ok.injEq] at h
    subst h
    exact (quatLoop_mono _ _ _ _ _ _ _ _ _ (hmult fps) _ _ _ _ _ hloop).2
  · intro ops s index fps ks h
    unfold decompress_quaternion_1_dof_keyframes at h
    obtain ⟨x, hx, h⟩ := bindOk h
    obtain ⟨y, hy, h⟩ := bindOk h
    obtain ⟨z, hz, h⟩ := bindOk h
    obtain ⟨count, hcount, h⟩ := bindOk h
    obtain ⟨dtw, hdtw, h⟩ := bindOk h
    obtain ⟨biasW, hbiasW, h⟩ := bindOk h
    obtain ⟨biasScale, hbiasScale, h⟩ := bindOk h
    obtain ⟨ew, hew, h⟩ := bindOk h
    obtain ⟨ph, hhdr, h⟩ := bindOk h
    obtain ⟨eScale, eOffset, idxh⟩ := ph
    obtain ⟨p, hloop, h⟩ := bindOk h
    obtain ⟨kfs, idx2⟩ := p
    simp only [pure, Except.pure, Except.ok.injEq] at h
    subst h
    exact (dofLoop_mono _ _ _ _ _ _ _ _ _ _ _ _ (hmult fps) _ _ _ _ _ hloop).2
  · intro s index fps gt ks h
    unfold decompress_vector_keyframes at h
    obtain ⟨count, hcount, h⟩ := bindOk h
    obtain ⟨dtw, hdtw, h⟩ := bindOk h
    obtain ⟨biasW, hbiasW, h⟩ := bindOk h
    obtain ⟨biasScale, hbiasScale, h⟩ := bindOk h
    obtain ⟨vw, hvw, h⟩ := bindOk h
    obtain ⟨vScale, hvScale, h⟩ := bindOk h
    obtain ⟨ps, hsos, h⟩ := bindOk h
    obtain ⟨sos, idxs⟩ := ps
    obtain ⟨p, hloop, h⟩ := bindOk h
    obtain ⟨kfs, idx2⟩ := p
    simp only [pure, Except.pure, Except.ok.injEq] at h
    subst h
    exact (vectorLoop_mono _ _ _ _ _ _ _ _ (hmult fps) _ _ _ _ _ hloop).2

/-- C9 (witness): strict increase of the concrete decoded sequences of
`streamC3` (quaternion), `dofStream` (1-DOF) and `streamC6` (vector). -/
theorem decoder_frames_strictly_increasing_witness :
    ([QuaternionKeyframe.mk 0 0 [0, 1, 0, 0],
      QuaternionKeyframe.mk 4 0 [0, 1, 0, 0]] : List QuaternionKeyframe).Pairwise
        (fun a b => a.frame < b.frame) ∧
    ([QuaternionKeyframe.mk 0 0 [1, 0, 0, 0]] : List QuaternionKeyframe).Pairwise
        (fun a b => a.frame < b.frame) ∧
    ([VectorKeyframe.mk 0 3 [0, 0, 0]] : List VectorKeyframe).Pairwise
        (fun a b => a.frame < b.frame) :=
  ⟨decoder_frames_strictly_increasing.1 opsEx streamC3 0 60 GameType.THESIMS _
      (by with_unfolding_all decide),
   decoder_frames_strictly_increasing.2.1 opsEx dofStream 0 60 _
      (by with_unfolding_all decide),
   decoder_frames_strictly_increasing.2.2 streamC6 0 60 GameType.THESIMS _
      (by with_unfolding_all decide)⟩

/-! ### C7 -/

/-- A successful zero-width signed read yields 0. -/
theorem get_bits_signed_zero_width {s : BitArray} {i : Nat} {b : Int}
    (h : s.get_bits_signed i 0 = .ok b) : b = 0 := by
  unfold BitArray.get_bits_signed at h
  obtain ⟨u, hu, h⟩ := bindOk h
  rw [if_pos rfl] at h
  simp only [pure, Except.pure, Except.ok.injEq] at h
  omega

/-- The per-keyframe angle read advances the cursor by 32 bits in the
raw-float case and by the element width otherwise. -/
theorem dofElement_advance {s : BitArray} {elemW : Nat} {eS eO : ℚ}
    {idx idx2 : Nat} {e : ℚ}
    (h : dofElement s elemW eS eO idx = .ok (e, idx2)) :
    idx2 = idx + (if elemW = 32 then 32 else elemW) := by
  unfold dofElement at h
  by_cases hw : elemW = 32
  · rw [if_pos hw] at h
    rw [if_pos hw]
    obtain ⟨v, hv, h⟩ := bindOk h
    simp only [pure, Except.pure, Except.ok.injEq, Prod.mk.injEq] at h
    omega
  · rw [if_neg hw] at h
    rw [if_neg hw]
    obtain ⟨v, hv, h⟩ := bindOk h
    simp only [pure, Except.pure, Except.ok.injEq, Prod.mk.injEq] at h
    omega

/-- The per-keyframe quaternion reconstruction advances the cursor by the
version-gated reserved bit, three component fields, and the negate bit. -/
theorem decodeQuatRaw_advance {ops : RealOps} {s : BitArray} {qScale : ℚ}
    {qw : Nat} {gt : GameType} {idx idx2 : Nat} {q : List ℚ}
    (h : decodeQuatRaw ops s qScale qw gt idx = .ok (q, idx2)) :
    idx2 = idx +
      (if gt ∈ [GameType.THESIMS2PETS, GameType.THESIMS2CASTAWAY, GameType.THESIMS3]
        then 1 else 0) + 3 * qw + 1 := by
  unfold decodeQuatRaw at h
  by_cases hg : gt ∈ [GameType.THESIMS2PETS, GameType.THESIMS2CASTAWAY, GameType.THESIMS3]
  · rw [if_pos hg] at h
    rw [if_pos hg]
    obtain ⟨v0, _, h⟩ := bindOk h
    obtain ⟨v1, _, h⟩ := bindOk h
    obtain ⟨v2, _, h⟩ := bindOk h
    obtain ⟨b, _, h⟩ := bindOk h
    simp only [pure, Except.pure, Except.ok.injEq, Prod.mk.injEq] at h
    omega
  · rw [if_neg hg] at h
    rw [if_neg hg]
    obtain ⟨v0, _, h⟩ := bindOk h
    obtain ⟨v1, _, h⟩ := bindOk h
    obtain ⟨v2, _, h⟩ := bindOk h
    obtain ⟨b, _, h⟩ := bindOk h
    simp only [pure, Except.pure, Except.ok.injEq, Prod.mk.injEq] at h
    omega

/-- C7: confirmed. With bias width 0, every keyframe of the 1-DOF loop
has bias 0 and the cursor advances only by the delta-time and element
fields (no bias bits are consumed); the same holds for the full-quaternion
loop, whose per-keyframe consumption is delta-time, reserved bit (newer
layouts), three components, and the negate bit. -/
theorem dof_bias_width_zero :
    (∀ (ops : RealOps) (s : BitArray) (dtw : Nat) (biasScale : ℚ) (elemW : Nat)
      (elemScale elemOffset x y z : ℚ) (mult n idx fc idx2 : Nat)
      (ks : List QuaternionKeyframe),
      dofLoop ops s dtw 0 biasScale elemW elemScale elemOffset x y z mult n idx fc =
        .ok (ks, idx2) →
      (∀ kf ∈ ks, kf.bias = 0) ∧
      idx2 = idx + n * (dtw + (if elemW = 32 then 32 else elemW))) ∧
    (∀ (ops : RealOps) (s : BitArray) (dtw : Nat) (biasScale qScale : ℚ)
      (qw mult : Nat) (gt : GameType) (n idx fc idx2 : Nat)
      (ks : List QuaternionKeyframe),
      quatLoop ops s dtw 0 biasScale qScale qw mult gt n idx fc = .ok (ks, idx2) →
      (∀ kf ∈ ks, kf.bias = 0) ∧
      idx2 = idx + n * (dtw + 3 * qw + 1 +
        (if gt ∈ [GameType.THESIMS2PETS, GameType.THESIMS2CASTAWAY, GameType.THESIMS3]
          then 1 else 0))) := by
  constructor
  · intro ops s dtw biasScale elemW elemScale elemOffset x y z mult n
    induction n with
    | zero =>
      intro idx fc idx2 ks h
      simp only [dofLoop, pure, Except.pure, Except.ok.injEq, Prod.mk.injEq] at h
      obtain ⟨hks, hidx⟩ := h
      subst hks
      exact ⟨by simp, by omega⟩
    | succ n ih =>
      intro idx fc idx2 ks h
      unfold dofLoop at h
      obtain ⟨dt, hdt, h⟩ := bindOk h
      obtain ⟨b, hbb, h⟩ := bindOk h
      obtain ⟨p, he, h⟩ := bindOk h
      obtain ⟨element, idxa⟩ := p
      obtain ⟨p2, hrest, h⟩ := bindOk h
      obtain ⟨rest, idxb⟩ := p2
      simp only [pure, Except.pure, Except.ok.injEq, Prod.mk.injEq] at h
      obtain ⟨hks, hidx⟩ := h
      subst hks
      obtain ⟨hbias, hadv⟩ := ih _ _ _ _ hrest
      have hb0 : b = 0 := get_bits_signed_zero_width hbb
      subst hb0
      have hea := dofElement_advance he
      have hmul : (n + 1) * (dtw + (if elemW = 32 then 32 else elemW)) =
          (dtw + (if elemW = 32 then 32 else elemW)) +
          n * (dtw + (if elemW = 32 then 32 else elemW)) := by ring
      refine ⟨?_, by omega⟩
      intro kf hkf
      rcases List.mem_cons.mp hkf with hkf | hkf
      · subst hkf
        simp
      · exact hbias kf hkf
  · intro ops s dtw biasScale qScale qw mult gt n
    induction n with
    | zero =>
      intro idx fc idx2 ks h
      simp only [quatLoop, pure, Except.pure, Except.ok.injEq, Prod.mk.injEq] at h
      obtain ⟨hks, hidx⟩ := h
      subst hks
      exact ⟨by simp, by omega⟩
    | succ n ih =>
      intro idx fc idx2 ks h
      unfold quatLoop at h
      obtain ⟨dt, hdt, h⟩ := bindOk h
      obtain ⟨bias, hbias0, h⟩ := bindOk h
      obtain ⟨p, hq, h⟩ := bindOk h
      obtain ⟨quat, idxa⟩ := p
      obtain ⟨p2, hrest, h⟩ := bindOk h
      obtain ⟨rest, idxb⟩ := p2
      simp only [pure, Except.pure, Except.ok.injEq, Prod.mk.injEq] at h
      obtain ⟨hks, hidx⟩ := h
      subst hks
      obtain ⟨hbias, hadv⟩ := ih _ _ _ _ hrest
      unfold quatBias at hbias0
      rw [if_neg (lt_irrefl 0)] at hbias0
      simp only [pure, Except.pure, Except.ok.injEq] at hbias0
      have hqa := decodeQuatRaw_advance hq
      have hmul : (n + 1) * (dtw + 3 * qw + 1 +
          (if gt ∈ [GameType.THESIMS2PETS, GameType.THESIMS2CASTAWAY, GameType.THESIMS3]
            then 1 else 0)) =
          (dtw + 3 * qw + 1 +
          (if gt ∈ [GameType.THESIMS2PETS, GameType.THESIMS2CASTAWAY, GameType.THESIMS3]
            then 1 else 0)) +
          n * (dtw + 3 * qw + 1 +
          (if gt ∈ [GameType.THESIMS2PETS, GameType.THESIMS2CASTAWAY, GameType.THESIMS3]
            then 1 else 0)) := by ring
      refine ⟨?_, by omega⟩
      intro kf hkf
      rcases List.mem_cons.mp hkf with hkf | hkf
      · subst hkf
        simp [← hbias0]
      · exact hbias kf hkf

/-- C7 (witness): the two conjuncts applied to concrete zero-bias-width
loops (one 1-DOF keyframe over a zero word, the two quaternion keyframes
of `streamC3`). -/
theorem dof_bias_width_zero_witness :
    ((∀ kf ∈ ([QuaternionKeyframe.mk 0 0 [1, 0, 0, 0]] : List QuaternionKeyframe),
        kf.bias = 0) ∧
      (32 : Nat) = 0 + 1 * (0 + (if (32 : Nat) = 32 then 32 else 32))) ∧
    ((∀ kf ∈ ([QuaternionKeyframe.mk 0 0 [0, 1, 0, 0],
        QuaternionKeyframe.mk 4 0 [0, 1, 0, 0]] : List QuaternionKeyframe),
        kf.bias = 0) ∧
      (105 : Nat) = 35 + 2 * (4 + 3 * 10 + 1 +
        (if GameType.THESIMS ∈ [GameType.THESIMS2PETS, GameType.THESIMS2CASTAWAY,
          GameType.THESIMS3] then 1 else 0))) :=
  ⟨dof_bias_width_zero.1 opsEx (BitArray.mk [0]) 0 5 32 1 0 1 0 0 1 1 0 0 32
      [QuaternionKeyframe.mk 0 0 [1, 0, 0, 0]] (by with_unfolding_all decide),
   dof_bias_width_zero.2 opsEx streamC3 4 0 (1/511) 10 1 GameType.THESIMS 2 35 0 105
      [QuaternionKeyframe.mk 0 0 [0, 1, 0, 0], QuaternionKeyframe.mk 4 0 [0, 1, 0, 0]]
      (by with_unfolding_all decide)⟩

/-! ### C4 -/

/-- The bone decoded from `bytesC4` under THESIMS2PETS with `streamC4`. -/
def boneC4 : Bone :=
  Bone.mk [QuaternionKeyframe.mk 0 0 [1, 0, 0, 0]]
    [VectorKeyframe.mk 0 1 [1, 1, 1]]
    [VectorKeyframe.mk 0 1 [0, 0, 0]]

/-- C4: refuted for rotation channels on the newer game versions. With
rotation index -2 under THESIMS2PETS, `read_bone` reads the 1-DOF flag bit
at bit offset 2 and dispatches the full-quaternion decoder at bit offset
3 (index decremented to -3), producing one keyframe; the decoder invoked
at bit offset `-index` = 2, as the claim states, returns no keyframes. -/
theorem bone_channel_resolution_counterexample :
    read_bone bytesC4 0 .le GameType.THESIMS2PETS [] streamC4 60 opsEx =
      .ok (boneC4, 12) ∧
    decompress_quaternion_keyframes opsEx streamC4 (-2) 60 GameType.THESIMS2PETS =
      .ok [] ∧
    boneC4.rotation_keyframes ≠ [] := by
  with_unfolding_all decide

/-- C4 (amended): for each of the three channels of every bone, index 0
yields exactly one keyframe at frame 0 with bias 1.0 and the documented
default value; a positive index yields exactly one keyframe at frame 0
with bias 1.0 read from the static float table at that offset; a negative
index dispatches to the matching channel decoder at bit offset `-index` —
except the rotation channel on THESIMS2PETS, THESIMS2CASTAWAY and
THESIMS3, where a 1-DOF flag bit is read at bit offset `-index`, the index
is decremented, and the selected rotation decoder starts at bit offset
`-index + 1`. -/
theorem bone_channel_resolution :
    ∀ (bytes : List Nat) (pos : Nat) (e : Endianness) (gt : GameType)
      (static : List ℚ) (stream : BitArray) (fps : ℚ) (ops : RealOps)
      (bone : Bone) (pos2 : Nat) (r sIdx lIdx : Int) (p1 p2 p3 : Nat),
    unpackI32 e bytes pos = .ok (r, p1) →
    unpackI32 e bytes p1 = .ok (sIdx, p2) →
    unpackI32 e bytes p2 = .ok (lIdx, p3) →
    read_bone bytes pos e gt static stream fps ops = .ok (bone, pos2) →
    ((r = 0 → bone.rotation_keyframes = [QuaternionKeyframe.mk 0 1 [1, 0, 0, 0]]) ∧
     (0 < r → ∃ qw qx qy qz : ℚ,
        listGet static (r.toNat + 3) = .ok qw ∧
        listGet static r.toNat = .ok qx ∧
        listGet static (r.toNat + 1) = .ok qy ∧
        listGet static (r.toNat + 2) = .ok qz ∧
        bone.rotation_keyframes = [QuaternionKeyframe.mk 0 1 [qw, qx, qy, qz]]) ∧
     (r < 0 →
        gt ∉ [GameType.THESIMS2PETS, GameType.THESIMS2CASTAWAY, GameType.THESIMS3] →
        decompress_quaternion_keyframes ops stream r fps gt = .ok bone.rotation_keyframes) ∧
     (r < 0 →
        gt ∈ [GameType.THESIMS2PETS, GameType.THESIMS2CASTAWAY, GameType.THESIMS3] →
        ∃ fl : Bool, stream.get_bit (-r).toNat = .ok fl ∧
          (fl = true →
            decompress_quaternion_1_dof_keyframes ops stream (r - 1) fps =
              .ok bone.rotation_keyframes) ∧
          (fl = false →
            decompress_quaternion_keyframes ops stream (r - 1) fps gt =
              .ok bone.rotation_keyframes))) ∧
    ((sIdx = 0 → bone.scale_keyframes = [VectorKeyframe.mk 0 1 [1, 1, 1]]) ∧
     (0 < sIdx → bone.scale_keyframes =
        [VectorKeyframe.mk 0 1 ((static.drop sIdx.toNat).take 3)]) ∧
     (sIdx < 0 →
        decompress_vector_keyframes stream sIdx fps gt = .ok bone.scale_keyframes)) ∧
    ((lIdx = 0 → bone.location_keyframes = [VectorKeyframe.mk 0 1 [0, 0, 0]]) ∧
     (0 < lIdx → bone.location_keyframes =
        [VectorKeyframe.mk 0 1 ((static.drop lIdx.toNat).take 3)]) ∧
     (lIdx < 0 →
        decompress_vector_keyframes stream lIdx fps gt = .ok bone.location_keyframes)) := by
  intro bytes pos e gt static stream fps ops bone pos2 r sIdx lIdx p1 p2 p3 hr hs hl hb
  unfold read_bone at hb
  obtain ⟨pr, hpr, hb⟩ := bindOk hb
  rw [hr] at hpr
  cases hpr
  obtain ⟨ps, hps, hb⟩ := bindOk hb
  rw [hs] at hps
  cases hps
  obtain ⟨pl, hpl, hb⟩ := bindOk hb
  rw [hl] at hpl
  cases hpl
  obtain ⟨rks, hrot, hb⟩ := bindOk hb
  obtain ⟨sks, hsc, hb⟩ := bindOk hb
  obtain ⟨lks, hloc, hb⟩ := bindOk hb
  simp only [pure, Except.pure, Except.ok.injEq, Prod.mk.injEq] at hb
  obtain ⟨hbone, -⟩ := hb
  subst hbone
  refine ⟨⟨?_, ?_, ?_, ?_⟩, ⟨?_, ?_, ?_⟩, ⟨?_, ?_, ?_⟩⟩
  · intro h0
    subst h0
    unfold rotationChannel at hrot
    rw [if_neg (lt_irrefl 0), if_neg (lt_irrefl 0)] at hrot
    simp only [pure, Except.pure, Except.ok.injEq] at hrot
    exact hrot.symm
  · intro hpos
    unfold rotationChannel at hrot
    rw [if_pos hpos] at hrot
    obtain ⟨qw, hqw, hrot⟩ := bindOk hrot
    obtain ⟨qx, hqx, hrot⟩ := bindOk hrot
    obtain ⟨qy, hqy, hrot⟩ := bindOk hrot
    obtain ⟨qz, hqz, hrot⟩ := bindOk hrot
    simp only [pure, Except.pure, Except.ok.injEq] at hrot
    exact ⟨qw, qx, qy, qz, hqw, hqx, hqy, hqz, hrot.symm⟩
  · intro hneg hgt
    unfold rotationChannel at hrot
    rw [if_neg (by omega), if_pos hneg] at hrot
    obtain ⟨pf, hpf, hrot⟩ := bindOk hrot
    unfold rotationFlag at hpf
    rw [if_neg hgt] at hpf
    simp only [pure, Except.pure, Except.ok.injEq] at hpf
    subst hpf
    simpa using hrot
  · intro hneg hgt
    unfold rotationChannel at hrot
    rw [if_neg (by omega), if_pos hneg] at hrot
    obtain ⟨pf, hpf, hrot⟩ := bindOk hrot
    unfold rotationFlag at hpf
    rw [if_pos hgt] at hpf
    obtain ⟨fl, hfl, hpf⟩ := bindOk hpf
    simp only [pure, Except.pure, Except.ok.injEq] at hpf
    subst hpf
    refine ⟨fl, hfl, ?_, ?_⟩
    · intro hft
      subst hft
      simpa using hrot
    · intro hff
      subst hff
      simpa using hrot
  · intro h0
    subst h0
    unfold vectorChannel at hsc
    rw [if_neg (lt_irrefl 0), if_neg (lt_irrefl 0)] at hsc
    simp only [pure, Except.pure, Except.ok.injEq] at hsc
    exact hsc.symm
  · intro hpos
    unfold vectorChannel at hsc
    rw [if_pos hpos] at hsc
    simp only [pure, Except.pure, Except.ok.injEq] at hsc
    exact hsc.symm
  · intro hneg
    unfold vectorChannel at hsc
    rw [if_neg (by omega), if_pos hneg] at hsc
    exact hsc
  · intro h0
    subst h0
    unfold vectorChannel at hloc
    rw [if_neg (lt_irrefl 0), if_neg (lt_irrefl 0)] at hloc
    simp only [pure, Except.pure, Except.ok.injEq] at hloc
    exact hloc.symm
  · intro hpos
    unfold vectorChannel at hloc
    rw [if_pos hpos] at hloc
    simp only [pure, Except.pure, Except.ok.injEq] at hloc
    exact hloc.symm
  · intro hneg
    unfold vectorChannel at hloc
    rw [if_neg (by omega), if_pos hneg] at hloc
    exact hloc

/-- C4 (amended, witness): the amended theorem applied to the concrete
bone record of `bytesC4` (rotation index -2, scale and location 0) under
THESIMS2PETS. -/
theorem bone_channel_resolution_witness :
    (unpackI32 .le bytesC4 0 = .ok (-2, 4) ∧
     unpackI32 .le bytesC4 4 = .ok (0, 8) ∧
     unpackI32 .le bytesC4 8 = .ok (0, 12) ∧
     read_bone bytesC4 0 .le GameType.THESIMS2PETS [] streamC4 60 opsEx =
       .ok (boneC4, 12)) ∧
    ((((-2 : Int) = 0 →
        boneC4.rotation_keyframes = [QuaternionKeyframe.mk 0 1 [1, 0, 0, 0]]) ∧
      ((0 : Int) < -2 → ∃ qw qx qy qz : ℚ,
        listGet [] ((-2 : Int).toNat + 3) = .ok qw ∧
        listGet [] (-2 : Int).toNat = .ok qx ∧
        listGet [] ((-2 : Int).toNat + 1) = .ok qy ∧
        listGet [] ((-2 : Int).toNat + 2) = .ok qz ∧
        boneC4.rotation_keyframes = [QuaternionKeyframe.mk 0 1 [qw, qx, qy, qz]]) ∧
      ((-2 : Int) < 0 →
        GameType.THESIMS2PETS ∉
          [GameType.THESIMS2PETS, GameType.THESIMS2CASTAWAY, GameType.THESIMS3] →
        decompress_quaternion_keyframes opsEx streamC4 (-2) 60 GameType.THESIMS2PETS =
          .ok boneC4.rotation_keyframes) ∧
      ((-2 : Int) < 0 →
        GameType.THESIMS2PETS ∈
          [GameType.THESIMS2PETS, GameType.THESIMS2CASTAWAY, GameType.THESIMS3] →
        ∃ fl : Bool, streamC4.get_bit (-(-2 : Int)).toNat = .ok fl ∧
          (fl = true →
            decompress_quaternion_1_dof_keyframes opsEx streamC4 ((-2 : Int) - 1) 60 =
              .ok boneC4.rotation_keyframes) ∧
          (fl = false →
            decompress_quaternion_keyframes opsEx streamC4 ((-2 : Int) - 1) 60
                GameType.THESIMS2PETS =
              .ok boneC4.rotation_keyframes))) ∧
     (((0 : Int) = 0 → boneC4.scale_keyframes = [VectorKeyframe.mk 0 1 [1, 1, 1]]) ∧
      ((0 : Int) < 0 → boneC4.scale_keyframes =
        [VectorKeyframe.mk 0 1 ((([] : List ℚ).drop (0 : Int).toNat).take 3)]) ∧
      ((0 : Int) < 0 →
        decompress_vector_keyframes streamC4 0 60 GameType.THESIMS2PETS =
          .ok boneC4.scale_keyframes)) ∧
     (((0 : Int) = 0 → boneC4.location_keyframes = [VectorKeyframe.mk 0 1 [0, 0, 0]]) ∧
      ((0 : Int) < 0 → boneC4.location_keyframes =
        [VectorKeyframe.mk 0 1 ((([] : List ℚ).drop (0 : Int).toNat).take 3)]) ∧
      ((0 : Int) < 0 →
        decompress_vector_keyframes streamC4 0 60 GameType.THESIMS2PETS =
          .ok boneC4.location_keyframes))) :=
  ⟨⟨by with_unfolding_all decide, by with_unfolding_all decide,
    by with_unfolding_all decide, by with_unfolding_all decide⟩,
   bone_channel_resolution bytesC4 0 .le GameType.THESIMS2PETS [] streamC4 60 opsEx
     boneC4 12 (-2) 0 0 4 8 12
     (by with_unfolding_all decide) (by with_unfolding_all decide)
     (by with_unfolding_all decide) (by with_unfolding_all decide)⟩

/-! ### C10 -/

/-- A successful `read_animation` ends at a position no later than the end
of the file: its final act is the mandatory 4-byte read, whose length
check guarantees the 4 bytes were available. -/
theorem read_animation_ok_pos {bytes : List Nat} {e : Endianness}
    {gt : GameType} {ops : RealOps} {a : Animation} {pos : Nat}
    (h : read_animation bytes e gt ops = .ok (a, pos)) : pos ≤ bytes.length := by
  unfold read_animation at h
  obtain ⟨pre, hmain, hfin⟩ := bindOk h
  unfold readAnimationFinish at hfin
  simp only [fread] at hfin
  by_cases hc : ((bytes.drop pre.pos).take 4).length ≠ 4
  · rw [if_pos hc] at hfin
    cases hfin
  · rw [if_neg hc] at hfin
    simp only [pure, Except.pure, Except.ok.injEq, Prod.mk.injEq] at hfin
    obtain ⟨-, hpos⟩ := hfin
    simp only [List.length_take, List.length_drop, not_not] at hpos hc
    omega

/-- C10: confirmed. A successful `read_file` implies the file was
consumed exactly: `read_animation` returned with its position at the very
end of the byte list (its final 4-byte block fully read), and a file with
even one trailing byte is rejected with the single failure kind. -/
theorem read_file_exact_consumption :
    (∀ (bytes : List Nat) (gt : GameType) (e : Endianness) (ops : RealOps)
      (a : Animation),
      read_file bytes gt e ops = .ok a →
      ∃ pos, read_animation bytes e gt ops = .ok (a, pos) ∧ pos = bytes.length) ∧
    read_file (bytesGood ++ [7]) GameType.THESIMS .le opsEx = .error .fileReadError := by
  constructor
  · intro bytes gt e ops a h
    unfold read_file at h
    split at h
    next a2 pos hra =>
      split at h
      next hc => cases h
      next hc =>
        cases h
        have hle := read_animation_ok_pos hra
        simp only [fread, List.length_take, List.length_drop, not_not] at hc
        exact ⟨pos, hra, by omega⟩
    next err hra =>
      split at h
      next => cases h
      next => cases h
  · with_unfolding_all decide

/-- C10 (witness): the exact-consumption theorem applied to the complete
well-formed file `bytesGood`. -/
theorem read_file_exact_consumption_witness :
    read_file bytesGood GameType.THESIMS .le opsEx = .ok animGood ∧
    ∃ pos, read_animation bytesGood .le GameType.THESIMS opsEx = .ok (animGood, pos) ∧
      pos = bytesGood.length :=
  ⟨by with_unfolding_all decide,
   read_file_exact_consumption.1 bytesGood GameType.THESIMS .le opsEx animGood
     (by with_unfolding_all decide)⟩

/-! ### C8: no decoding path raises a TypeError

The only `TypeError` in the module is the `ctypes.c_int32`-on-float call
in the width-32 branch of the vector component code; the lemmas below
track that this branch is unreachable (the width is a 5-bit field) and
that every other error raised is one of the caught classes or the
file-level failure kind itself. -/

theorem bindNoTE2 {α β : Type} {x : Exc α} {f : α → Exc β}
    (hx : x ≠ .error .typeError)
    (hf : ∀ a, x = .ok a → f a ≠ .error .typeError) :
    x >>= f ≠ .error .typeError := by
  cases x with
  | ok a => simpa [Bind.bind, Except.bind] using hf a rfl
  | error e => simpa [Bind.bind, Except.bind] using hx

theorem noTE_pure {α : Type} (a : α) : (pure a : Exc α) ≠ .error .typeError := by
  simp [pure, Except.pure]

theorem noTE_get_bits_unsigned (s : BitArray) (i w : Nat) :
    s.get_bits_unsigned i w ≠ .error .typeError := by
  unfold BitArray.get_bits_unsigned
  split <;> simp

theorem noTE_get_bits_signed (s : BitArray) (i w : Nat) :
    s.get_bits_signed i w ≠ .error .typeError := by
  unfold BitArray.get_bits_signed
  refine bindNoTE2 (noTE_get_bits_unsigned s i w) ?_
  intro u _
  split
  · exact noTE_pure _
  · split <;> exact noTE_pure _

theorem noTE_get_bit (s : BitArray) (i : Nat) :
    s.get_bit i ≠ .error .typeError := by
  unfold BitArray.get_bit
  split <;> simp

theorem noTE_get_float (s : BitArray) (i : Nat) :
    s.get_float i ≠ .error .typeError := by
  unfold BitArray.get_float
  exact bindNoTE2 (noTE_get_bits_unsigned s i 32) (fun u _ => noTE_pure _)

theorem noTE_signed_scaler (s : BitArray) (w : Nat) :
    s.signed_bits_to_float_scaler w ≠ .error .typeError := by
  unfold BitArray.signed_bits_to_float_scaler
  split <;> simp

theorem noTE_unsigned_scaler (s : BitArray) (w : Nat) :
    s.unsigned_bits_to_float_scaler w ≠ .error .typeError := by
  unfold BitArray.unsigned_bits_to_float_scaler
  split <;> simp

theorem noTE_biasScaleOf (s : BitArray) (w : Nat) :
    biasScaleOf s w ≠ .error .typeError := by
  unfold biasScaleOf
  split
  · exact noTE_pure _
  · exact noTE_signed_scaler s w

theorem noTE_vectorScaleOf (s : BitArray) (w : Nat) :
    vectorScaleOf s w ≠ .error .typeError := by
  unfold vectorScaleOf
  split
  · exact noTE_pure _
  · exact noTE_unsigned_scaler s w

theorem noTE_quatBias (s : BitArray) (biasW : Nat) (biasScale : ℚ) (idx : Nat) :
    quatBias s biasW biasScale idx ≠ .error .typeError := by
  unfold quatBias
  split
  · exact bindNoTE2 (noTE_get_bits_signed s idx biasW) (fun b _ => noTE_pure _)
  · exact noTE_pure _

theorem noTE_vectorBias (s : BitArray) (biasW : Nat) (biasScale : ℚ) (idx : Nat) :
    vectorBias s biasW biasScale idx ≠ .error .typeError := by
  unfold vectorBias
  split
  · exact bindNoTE2 (noTE_get_bits_unsigned s idx biasW) (fun b _ => noTE_pure _)
  · exact noTE_pure _

theorem noTE_decodeQuatRaw (ops : RealOps) (s : BitArray) (qScale : ℚ)
    (qw : Nat) (gt : GameType) (idx : Nat) :
    decodeQuatRaw ops s qScale qw gt idx ≠ .error .typeError := by
  unfold decodeQuatRaw
  split
  · refine bindNoTE2 (noTE_get_bits_signed _ _ _) fun v0 _ => ?_
    refine bindNoTE2 (noTE_get_bits_signed _ _ _) fun v1 _ => ?_
    refine bindNoTE2 (noTE_get_bits_signed _ _ _) fun v2 _ => ?_
    refine bindNoTE2 (noTE_get_bit _ _) fun b _ => ?_
    exact noTE_pure _
  · refine bindNoTE2 (noTE_get_bits_signed _ _ _) fun v1 _ => ?_
    refine bindNoTE2 (noTE_get_bits_signed _ _ _) fun v2 _ => ?_
    refine bindNoTE2 (noTE_get_bits_signed _ _ _) fun v3 _ => ?_
    refine bindNoTE2 (noTE_get_bit _ _) fun b _ => ?_
    exact noTE_pure _

theorem noTE_quatLoop (ops : RealOps) (s : BitArray) (dtw biasW : Nat)
    (biasScale qScale : ℚ) (qw mult : Nat) (gt : GameType) :
    ∀ (n idx fc : Nat),
    quatLoop ops s dtw biasW biasScale qScale qw mult gt n idx fc ≠
      .error .typeError := by
  intro n
  induction n with
  | zero =>
    intro idx fc
    exact noTE_pure _
  | succ n ih =>
    intro idx fc
    unfold quatLoop
    refine bindNoTE2 (noTE_get_bits_unsigned _ _ _) fun dt _ => ?_
    refine bindNoTE2 (noTE_quatBias _ _ _ _) fun bias _ => ?_
    refine bindNoTE2 (noTE_decodeQuatRaw _ _ _ _ _ _) fun p _ => ?_
    obtain ⟨quat, idxa⟩ := p
    refine bindNoTE2 (ih _ _) fun p2 _ => ?_
    obtain ⟨rest, idxb⟩ := p2
    exact noTE_pure _

theorem noTE_decompress_quaternion (ops : RealOps) (s : BitArray)
    (index : Int) (fps : ℚ) (gt : GameType) :
    decompress_quaternion_keyframes ops s index fps gt ≠ .error .typeError := by
  unfold decompress_quaternion_keyframes
  refine bindNoTE2 (noTE_get_bits_unsigned _ _ _) fun count _ => ?_
  refine bindNoTE2 (noTE_get_bits_unsigned _ _ _) fun dtw _ => ?_
  refine bindNoTE2 (noTE_get_bits_unsigned _ _ _) fun biasW _ => ?_
  refine bindNoTE2 (noTE_biasScaleOf _ _) fun biasScale _ => ?_
  refine bindNoTE2 (noTE_get_bits_unsigned _ _ _) fun qw _ => ?_
  refine bindNoTE2 (noTE_signed_scaler _ _) fun qScale _ => ?_
  refine bindNoTE2 (noTE_quatLoop _ _ _ _ _ _ _ _ _ _ _ _) fun p _ => ?_
  obtain ⟨kfs, idx2⟩ := p
  exact noTE_pure _

theorem noTE_dofElemHeader (s : BitArray) (elemW idx : Nat) :
    dofElemHeader s elemW idx ≠ .error .typeError := by
  unfold dofElemHeader
  split
  · exact noTE_pure _
  · refine bindNoTE2 (noTE_unsigned_scaler _ _) fun es _ => ?_
    refine bindNoTE2 (noTE_get_float _ _) fun sf _ => ?_
    refine bindNoTE2 (noTE_get_float _ _) fun off _ => ?_
    exact noTE_pure _

theorem noTE_dofElement (s : BitArray) (elemW : Nat) (eS eO : ℚ) (idx : Nat) :
    dofElement s elemW eS eO idx ≠ .error .typeError := by
  unfold dofElement
  split
  · exact bindNoTE2 (noTE_get_float _ _) (fun e _ => noTE_pure _)
  · exact bindNoTE2 (noTE_get_bits_unsigned _ _ _) (fun u _ => noTE_pure _)

theorem noTE_dofLoop (ops : RealOps) (s : BitArray) (dtw biasW : Nat)
    (biasScale : ℚ) (elemW : Nat) (eS eO x y z : ℚ) (mult : Nat) :
    ∀ (n idx fc : Nat),
    dofLoop ops s dtw biasW biasScale elemW eS eO x y z mult n idx fc ≠
      .error .typeError := by
  intro n
  induction n with
  | zero =>
    intro idx fc
    exact noTE_pure _
  | succ n ih =>
    intro idx fc
    unfold dofLoop
    refine bindNoTE2 (noTE_get_bits_unsigned _ _ _) fun dt _ => ?_
    refine bindNoTE2 (noTE_get_bits_signed _ _ _) fun b _ => ?_
    refine bindNoTE2 (noTE_dofElement _ _ _ _ _) fun p _ => ?_
    obtain ⟨element, idxa⟩ := p
    refine bindNoTE2 (ih _ _) fun p2 _ => ?_
    obtain ⟨rest, idxb⟩ := p2
    exact noTE_pure _

theorem noTE_decompress_1dof (ops : RealOps) (s : BitArray) (index : Int)
    (fps : ℚ) :
    decompress_quaternion_1_dof_keyframes ops s index fps ≠ .error .typeError := by
  unfold decompress_quaternion_1_dof_keyframes
  refine bindNoTE2 (noTE_get_float _ _) fun x _ => ?_
  refine bindNoTE2 (noTE_get_float _ _) fun y _ => ?_
  refine bindNoTE2 (noTE_get_float _ _) fun z _ => ?_
  refine bindNoTE2 (noTE_get_bits_unsigned _ _ _) fun count _ => ?_
  refine bindNoTE2 (noTE_get_bits_unsigned _ _ _) fun dtw _ => ?_
  refine bindNoTE2 (noTE_get_bits_unsigned _ _ _) fun biasW _ => ?_
  refine bindNoTE2 (noTE_biasScaleOf _ _) fun biasScale _ => ?_
  refine bindNoTE2 (noTE_get_bits_unsigned _ _ _) fun ew _ => ?_
  refine bindNoTE2 (noTE_dofElemHeader _ _ _) fun ph _ => ?_
  obtain ⟨eS, eO, idxh⟩ := ph
  refine bindNoTE2 (noTE_dofLoop _ _ _ _ _ _ _ _ _ _ _ _ _ _ _) fun p _ => ?_
  obtain ⟨kfs, idx2⟩ := p
  exact noTE_pure _

theorem noTE_vectorComponentValue (s : BitArray) (vw : Nat) (sc off : ℚ)
    (idx : Nat) (hw : vw ≠ 32) :
    vectorComponentValue s vw sc off idx ≠ .error .typeError := by
  unfold vectorComponentValue
  rw [if_neg hw]
  exact bindNoTE2 (noTE_get_bits_unsigned _ _ _) (fun v _ => noTE_pure _)

theorem noTE_vectorComponents (s : BitArray) (vw : Nat) (hw : vw ≠ 32) :
    ∀ (sos : List (ℚ × ℚ)) (idx : Nat),
    vectorComponents s vw sos idx ≠ .error .typeError := by
  intro sos
  induction sos with
  | nil =>
    intro idx
    exact noTE_pure _
  | cons so rest ih =>
    intro idx
    unfold vectorComponents
    refine bindNoTE2 (noTE_vectorComponentValue _ _ _ _ _ hw) fun p _ => ?_
    obtain ⟨v, idxa⟩ := p
    refine bindNoTE2 (ih _) fun p2 _ => ?_
    obtain ⟨vs, idxb⟩ := p2
    exact noTE_pure _

theorem noTE_vectorScaleOffsets (s : BitArray) (vScale : ℚ) :
    ∀ (n idx : Nat), vectorScaleOffsets s vScale n idx ≠ .error .typeError := by
  intro n
  induction n with
  | zero =>
    intro idx
    exact noTE_pure _
  | succ n ih =>
    intro idx
    unfold vectorScaleOffsets
    refine bindNoTE2 (noTE_get_float _ _) fun sf _ => ?_
    refine bindNoTE2 (noTE_get_float _ _) fun off _ => ?_
    refine bindNoTE2 (ih _) fun p _ => ?_
    obtain ⟨rest, idxb⟩ := p
    exact noTE_pure _

theorem noTE_vectorLoop (s : BitArray) (dtw biasW : Nat) (biasScale : ℚ)
    (vw : Nat) (sos : List (ℚ × ℚ)) (mult : Nat) (gt : GameType) (hw : vw ≠ 32) :
    ∀ (n idx fc : Nat),
    vectorLoop s dtw biasW biasScale vw sos mult gt n idx fc ≠ .error .typeError := by
  intro n
  induction n with
  | zero =>
    intro idx fc
    exact noTE_pure _
  | succ n ih =>
    intro idx fc
    unfold vectorLoop
    refine bindNoTE2 (noTE_get_bits_unsigned _ _ _) fun dt _ => ?_
    refine bindNoTE2 (noTE_vectorBias _ _ _ _) fun bias _ => ?_
    refine bindNoTE2 (noTE_vectorComponents _ _ hw _ _) fun p _ => ?_
    obtain ⟨vec, idxa⟩ := p
    refine bindNoTE2 (ih _ _) fun p2 _ => ?_
    obtain ⟨rest, idxb⟩ := p2
    exact noTE_pure _

theorem noTE_decompress_vector (s : BitArray) (index : Int) (fps : ℚ)
    (gt : GameType) :
    decompress_vector_keyframes s index fps gt ≠ .error .typeError := by
  unfold decompress_vector_keyframes
  refine bindNoTE2 (noTE_get_bits_unsigned _ _ _) fun count _ => ?_
  refine bindNoTE2 (noTE_get_bits_unsigned _ _ _) fun dtw _ => ?_
  refine bindNoTE2 (noTE_get_bits_unsigned _ _ _) fun biasW _ => ?_
  refine bindNoTE2 (noTE_biasScaleOf _ _) fun biasScale _ => ?_
  refine bindNoTE2 (noTE_get_bits_unsigned _ _ _) fun vw hvw => ?_
  refine bindNoTE2 (noTE_vectorScaleOf _ _) fun vScale _ => ?_
  refine bindNoTE2 (noTE_vectorScaleOffsets _ _ _ _) fun p _ => ?_
  obtain ⟨sos, idxs⟩ := p
  have hw : vw ≠ 32 := by
    have := get_bits_unsigned_ok_lt hvw
    omega
  refine bindNoTE2 (noTE_vectorLoop _ _ _ _ _ _ _ _ hw _ _ _) fun p2 _ => ?_
  obtain ⟨kfs, idx2⟩ := p2
  exact noTE_pure _

theorem noTE_unpackU32 (e : Endianness) (bytes : List Nat) (pos : Nat) :
    unpackU32 e bytes pos ≠ .error .typeError := by
  unfold unpackU32
  split
  split <;> simp [pure, Except.pure]

theorem noTE_unpackI32 (e : Endianness) (bytes : List Nat) (pos : Nat) :
    unpackI32 e bytes pos ≠ .error .typeError := by
  unfold unpackI32
  refine bindNoTE2 (noTE_unpackU32 _ _ _) fun p _ => ?_
  obtain ⟨u, p2⟩ := p
  dsimp only
  split <;> exact noTE_pure _

theorem noTE_unpackF32 (e : Endianness) (bytes : List Nat) (pos : Nat) :
    unpackF32 e bytes pos ≠ .error .typeError := by
  unfold unpackF32
  refine bindNoTE2 (noTE_unpackU32 _ _ _) fun p _ => ?_
  obtain ⟨u, p2⟩ := p
  exact noTE_pure _

theorem noTE_unpackU8 (bytes : List Nat) (pos : Nat) :
    unpackU8 bytes pos ≠ .error .typeError := by
  unfold unpackU8
  split
  split <;> simp [pure, Except.pure]

theorem noTE_read_null_terminated_string (bytes : List Nat) (pos : Nat) :
    read_null_terminated_string bytes pos ≠ .error .typeError := by
  unfold read_null_terminated_string
  split <;> simp [pure, Except.pure]

theorem noTE_listGet (l : List ℚ) (i : Nat) : listGet l i ≠ .error .typeError := by
  unfold listGet
  split <;> simp [pure, Except.pure]

theorem noTE_rotationFlag (stream : BitArray) (gt : GameType) (index : Int) :
    rotationFlag stream gt index ≠ .error .typeError := by
  unfold rotationFlag
  split
  · exact bindNoTE2 (noTE_get_bit _ _) (fun b _ => noTE_pure _)
  · exact noTE_pure _

theorem noTE_rotationChannel (gt : GameType) (static : List ℚ)
    (stream : BitArray) (fps : ℚ) (ops : RealOps) (index : Int) :
    rotationChannel gt static stream fps ops index ≠ .error .typeError := by
  unfold rotationChannel
  split
  · refine bindNoTE2 (noTE_listGet _ _) fun qw _ => ?_
    refine bindNoTE2 (noTE_listGet _ _) fun qx _ => ?_
    refine bindNoTE2 (noTE_listGet _ _) fun qy _ => ?_
    refine bindNoTE2 (noTE_listGet _ _) fun qz _ => ?_
    exact noTE_pure _
  · split
    · refine bindNoTE2 (noTE_rotationFlag _ _ _) fun p _ => ?_
      obtain ⟨fl, i2⟩ := p
      dsimp only
      split
      · exact noTE_decompress_1dof _ _ _ _
      · exact noTE_decompress_quaternion _ _ _ _ _
    · exact noTE_pure _

theorem noTE_vectorChannel (gt : GameType) (static : List ℚ)
    (stream : BitArray) (fps : ℚ) (deflt : List ℚ) (index : Int) :
    vectorChannel gt static stream fps deflt index ≠ .error .typeError := by
  unfold vectorChannel
  split
  · exact noTE_pure _
  · split
    · exact noTE_decompress_vector _ _ _ _
    · exact noTE_pure _

theorem noTE_read_bone (bytes : List Nat) (pos : Nat) (e : Endianness)
    (gt : GameType) (static : List ℚ) (stream : BitArray) (fps : ℚ)
    (ops : RealOps) :
    read_bone bytes pos e gt static stream fps ops ≠ .error .typeError := by
  unfold read_bone
  refine bindNoTE2 (noTE_unpackI32 _ _ _) fun p1 _ => ?_
  obtain ⟨r, q1⟩ := p1
  refine bindNoTE2 (noTE_unpackI32 _ _ _) fun p2 _ => ?_
  obtain ⟨sIdx, q2⟩ := p2
  refine bindNoTE2 (noTE_unpackI32 _ _ _) fun p3 _ => ?_
  obtain ⟨lIdx, q3⟩ := p3
  refine bindNoTE2 (noTE_rotationChannel _ _ _ _ _ _) fun rks _ => ?_
  refine bindNoTE2 (noTE_vectorChannel _ _ _ _ _ _) fun sks _ => ?_
  refine bindNoTE2 (noTE_vectorChannel _ _ _ _ _ _) fun lks _ => ?_
  exact noTE_pure _

theorem noTE_readFloats (e : Endianness) (bytes : List Nat) :
    ∀ (n pos : Nat), readFloats e bytes n pos ≠ .error .typeError := by
  intro n
  induction n with
  | zero =>
    intro pos
    exact noTE_pure _
  | succ n ih =>
    intro pos
    unfold readFloats
    refine bindNoTE2 (noTE_unpackF32 _ _ _) fun p _ => ?_
    obtain ⟨f, pos2⟩ := p
    refine bindNoTE2 (ih _) fun p2 _ => ?_
    obtain ⟨rest, pos3⟩ := p2
    exact noTE_pure _

theorem noTE_readWords (e : Endianness) (bytes : List Nat) :
    ∀ (n pos : Nat), readWords e bytes n pos ≠ .error .typeError := by
  intro n
  induction n with
  | zero =>
    intro pos
    exact noTE_pure _
  | succ n ih =>
    intro pos
    unfold readWords
    refine bindNoTE2 (noTE_unpackU32 _ _ _) fun p _ => ?_
    obtain ⟨w, pos2⟩ := p
    refine bindNoTE2 (ih _) fun p2 _ => ?_
    obtain ⟨rest, pos3⟩ := p2
    exact noTE_pure _

theorem noTE_readBones (bytes : List Nat) (e : Endianness) (gt : GameType)
    (static : List ℚ) (stream : BitArray) (fps : ℚ) (ops : RealOps) :
    ∀ (n pos : Nat),
    readBones bytes e gt static stream fps ops n pos ≠ .error .typeError := by
  intro n
  induction n with
  | zero =>
    intro pos
    exact noTE_pure _
  | succ n ih =>
    intro pos
    unfold readBones
    refine bindNoTE2 (noTE_read_bone _ _ _ _ _ _ _ _) fun p _ => ?_
    obtain ⟨b, pos2⟩ := p
    refine bindNoTE2 (ih _) fun p2 _ => ?_
    obtain ⟨rest, pos3⟩ := p2
    exact noTE_pure _

theorem noTE_readSounds (bytes : List Nat) :
    ∀ (n pos : Nat), readSounds bytes n pos ≠ .error .typeError := by
  intro n
  induction n with
  | zero =>
    intro pos
    exact noTE_pure _
  | succ n ih =>
    intro pos
    unfold readSounds
    refine bindNoTE2 (noTE_read_null_terminated_string _ _) fun p _ => ?_
    obtain ⟨nm, pos2⟩ := p
    exact ih _

theorem noTE_soundTable (bytes : List Nat) (e : Endianness) (gt : GameType)
    (pos : Nat) : soundTable bytes e gt pos ≠ .error .typeError := by
  unfold soundTable
  split
  · refine bindNoTE2 (noTE_unpackU32 _ _ _) fun p _ => ?_
    obtain ⟨cnt, pos2⟩ := p
    exact noTE_readSounds _ _ _
  · exact noTE_pure _

theorem noTE_readAnimationMain (bytes : List Nat) (e : Endianness)
    (gt : GameType) (ops : RealOps) :
    readAnimationMain bytes e gt ops ≠ .error .typeError := by
  unfold readAnimationMain
  refine bindNoTE2 (noTE_read_null_terminated_string _ _) fun pn _ => ?_
  obtain ⟨name, pos1⟩ := pn
  refine bindNoTE2 (noTE_unpackU32 _ _ _) fun p2 _ => ?_
  obtain ⟨frame_count, pos2⟩ := p2
  refine bindNoTE2 (noTE_unpackU32 _ _ _) fun p3 _ => ?_
  obtain ⟨bone_count, pos3⟩ := p3
  refine bindNoTE2 (noTE_unpackU32 _ _ _) fun p4 _ => ?_
  obtain ⟨static_count, pos4⟩ := p4
  refine bindNoTE2 (noTE_readFloats _ _ _ _) fun p5 _ => ?_
  obtain ⟨static_data, pos5⟩ := p5
  refine bindNoTE2 (noTE_unpackU32 _ _ _) fun p6 _ => ?_
  obtain ⟨bit_count, pos6⟩ := p6
  refine bindNoTE2 (noTE_readWords _ _ _ _) fun p7 _ => ?_
  obtain ⟨words, pos7⟩ := p7
  refine bindNoTE2 (noTE_unpackF32 _ _ _) fun p8 _ => ?_
  obtain ⟨fps, pos8⟩ := p8
  refine bindNoTE2 (noTE_unpackF32 _ _ _) fun p9 _ => ?_
  obtain ⟨intensity, pos9⟩ := p9
  refine bindNoTE2 (noTE_unpackU32 _ _ _) fun p10 _ => ?_
  obtain ⟨flags, pos10⟩ := p10
  refine bindNoTE2 (noTE_unpackU8 _ _) fun p11 _ => ?_
  obtain ⟨bt, pos11⟩ := p11
  refine bindNoTE2 (noTE_unpackF32 _ _ _) fun p12 _ => ?_
  obtain ⟨m1, pos12⟩ := p12
  refine bindNoTE2 (noTE_unpackF32 _ _ _) fun p13 _ => ?_
  obtain ⟨m2, pos13⟩ := p13
  refine bindNoTE2 (noTE_unpackF32 _ _ _) fun p14 _ => ?_
  obtain ⟨dur, pos14⟩ := p14
  refine bindNoTE2 (noTE_unpackF32 _ _ _) fun p15 _ => ?_
  obtain ⟨speed, pos15⟩ := p15
  refine bindNoTE2 (noTE_unpackU8 _ _) fun p16 _ => ?_
  obtain ⟨ra, pos16⟩ := p16
  refine bindNoTE2 (noTE_unpackU8 _ _) fun p17 _ => ?_
  obtain ⟨ea, pos17⟩ := p17
  refine bindNoTE2 (noTE_readBones _ _ _ _ _ _ _ _ _) fun p18 _ => ?_
  obtain ⟨bones, pos18⟩ := p18
  refine bindNoTE2 (noTE_soundTable _ _ _ _) fun pos19 _ => ?_
  exact noTE_pure _

theorem noTE_readAnimationFinish (bytes : List Nat) (p : PreAnim) :
    readAnimationFinish bytes p ≠ .error .typeError := by
  unfold readAnimationFinish
  simp only [fread]
  split
  · simp
  · exact noTE_pure _

theorem noTE_read_animation (bytes : List Nat) (e : Endianness)
    (gt : GameType) (ops : RealOps) :
    read_animation bytes e gt ops ≠ .error .typeError := by
  unfold read_animation
  exact bindNoTE2 (noTE_readAnimationMain _ _ _ _)
    (fun p _ => noTE_readAnimationFinish _ _)

/-- C8: confirmed. For every file, game version and endianness,
`read_file` either returns a complete `Animation` or fails with the single
documented kind `FileReadError`: every error produced anywhere in the
decode is one of the caught classes (here normalized to `FileReadError`)
or `FileReadError` itself — in particular the only `TypeError` site, the
width-32 vector branch, is unreachable because the width is a 5-bit
field — and, concretely, truncating the well-formed file `bytesGood` one
byte before the end of its mandatory trailing padding produces
`FileReadError`. No partial `Animation` exists by construction of the
result type. -/
theorem read_file_failure_surface :
    (∀ (bytes : List Nat) (gt : GameType) (e : Endianness) (ops : RealOps),
      (∃ a, read_file bytes gt e ops = .ok a) ∨
      read_file bytes gt e ops = .error .fileReadError) ∧
    read_file (bytesGood.take 91) GameType.THESIMS .le opsEx =
      .error .fileReadError := by
  constructor
  · intro bytes gt e ops
    unfold read_file
    split
    next a pos hra =>
      split
      · right
        rfl
      · left
        exact ⟨a, rfl⟩
    next err hra =>
      split
      next hc =>
        right
        rfl
      next hc =>
        have hne := noTE_read_animation bytes e gt ops
        rw [hra] at hne
        cases err with
        | fileReadError => right; rfl
        | typeError => exact absurd rfl hne
        | indexError => exact absurd rfl hc
        | valueError => exact absurd rfl hc
        | zeroDivisionError => exact absurd rfl hc
        | structError => exact absurd rfl hc
        | osError => exact absurd rfl hc
  · with_unfolding_all decide

end TSC
